import Mathlib

/-!
# Document model of `mgm`: identifiers, lifecycle hooks, serialization, transactions

A shallow embedding of `model.go`, `field.go` and `model_gen.go`, with the scenarios of
`transaction_test.go`.

* A Go `byte` is a `Fin 256`; a Go `string` is its sequence of bytes.
* A Go `int64` is an `Int`.
* A value of the interface type `any` is a `GoAny`: its dynamic type together with
  its value.
* A method with a pointer receiver takes the receiver's state and returns the new
  state next to its Go results.
* `time.Now().UnixMilli()` is a parameter `now` of the hook that reads the clock.
-/

namespace Mgm

/-! ## Bytes, strings, errors -/

/-- A Go `byte`. -/
abbrev Byte := Fin 256

/-- A Go `string`: an immutable sequence of bytes; `len` is `List.length`. -/
abbrev GoString := List Byte

/-- Conversion `byte(n)` of an unsigned integer: keeps the low eight bits. -/
def toByte (n : Nat) : Byte := ⟨n % 256, Nat.mod_lt n (by decide)⟩

/-- The error values the identifier conversion can return: `primitive.ErrInvalidHex`,
`hex.InvalidByteError(c)` and `hex.ErrLength`. -/
inductive GoError where
  | ErrInvalidHex
  | InvalidByteError (c : Byte)
  | ErrLength
deriving DecidableEq, Repr

/-! ## `encoding/hex` and `primitive.ObjectID`

These belong to the Go standard library and to the MongoDB driver, which `model.go`
imports; they are embedded from their published sources. -/

/-- The table `hextable = "0123456789abcdef"` of `encoding/hex`. -/
def hextable : List Byte :=
  [0x30, 0x31, 0x32, 0x33, 0x34, 0x35, 0x36, 0x37, 0x38, 0x39,
   0x61, 0x62, 0x63, 0x64, 0x65, 0x66]

/-- Function `fromHexChar` of `encoding/hex`: the value of one hexadecimal digit, of
either letter case, or `none` for any other byte. -/
def fromHexChar (c : Byte) : Option Nat :=
  if 0x30 ≤ c.val ∧ c.val ≤ 0x39 then some (c.val - 0x30)
  else if 0x61 ≤ c.val ∧ c.val ≤ 0x66 then some (c.val - 0x61 + 10)
  else if 0x41 ≤ c.val ∧ c.val ≤ 0x46 then some (c.val - 0x41 + 10)
  else none

/-- Function `hex.Decode`: decodes the bytes pairwise, stops at the first byte that is
not a hexadecimal digit with `InvalidByteError`, and reports `ErrLength` for an odd
length whose bytes are all digits. -/
def hexDecode : List Byte → Except GoError (List Byte)
  | [] => .ok []
  | [p] =>
    match fromHexChar p with
    | none => .error (.InvalidByteError p)
    | some _ => .error .ErrLength
  | p :: q :: rest =>
    match fromHexChar p with
    | none => .error (.InvalidByteError p)
    | some a =>
      match fromHexChar q with
      | none => .error (.InvalidByteError q)
      | some b =>
        match hexDecode rest with
        | .error e => .error e
        | .ok dst => .ok (toByte ((a <<< 4) ||| b) :: dst)

/-- Function `hex.Encode`: every source byte `v` becomes `hextable[v>>4]` followed by
`hextable[v&0x0f]`. -/
def hexEncode : List Byte → List Byte
  | [] => []
  | v :: src =>
    hextable.getD (v.val >>> 4) 0 :: hextable.getD (v.val &&& 0x0f) 0 :: hexEncode src

/-- The driver's `primitive.ObjectID`, a `[12]byte`. -/
structure ObjectID where
  bytes : List Byte
  size : bytes.length = 12
deriving DecidableEq

/-- The zero value `primitive.NilObjectID`. -/
def NilObjectID : ObjectID := ⟨List.replicate 12 0, by decide⟩

/-- Filling a `[12]byte` from a slice with `copy`: the first twelve bytes, the rest of
the array keeps its zero value. -/
def copyOID (b : List Byte) : ObjectID :=
  ⟨(b ++ List.replicate 12 0).take 12, by simp⟩

/-- Function `primitive.ObjectIDFromHex`: rejects a string whose length is not 24 with
`ErrInvalidHex`, then decodes it with `hex.Decode`. -/
def ObjectIDFromHex (s : GoString) : ObjectID × Option GoError :=
  if s.length ≠ 24 then (NilObjectID, some .ErrInvalidHex)
  else
    match hexDecode s with
    | .error e => (NilObjectID, some e)
    | .ok b => (copyOID b, none)

/-- Method `ObjectID.Hex`: the 24 lower-case hexadecimal digits of the twelve bytes. -/
def ObjectID.Hex (id : ObjectID) : GoString := hexEncode id.bytes

/-! ## Values of type `any` -/

/-- A value of the interface type `any`, by dynamic type: the nil interface, a
`string`, a `primitive.ObjectID`, an `int`, a `bool`, a `[]byte`. -/
inductive GoAny where
  | nil
  | string (s : GoString)
  | objectID (o : ObjectID)
  | int (i : Int)
  | bool (b : Bool)
  | bytes (b : List Byte)
deriving DecidableEq

/-- The type assertion `id.(string)` in its two-result form. -/
def GoAny.asString : GoAny → Option GoString
  | .string s => some s
  | _ => none

/-- The type assertion `id.(primitive.ObjectID)` in its one-result form, which panics
(`none`) when the dynamic type is another one. -/
def GoAny.assertObjectID : GoAny → Option ObjectID
  | .objectID o => some o
  | _ => none

/-- Whether the dynamic type of the value is `string`. -/
def GoAny.isString : GoAny → Bool
  | .string _ => true
  | _ => false

/-- Whether the dynamic type of the value is `primitive.ObjectID`. -/
def GoAny.isObjectID : GoAny → Bool
  | .objectID _ => true
  | _ => false

/-! ## `DefaultModel` (model.go) -/

/-- Struct `DefaultModel`. -/
structure DefaultModel where
  ObjectId : ObjectID
  Id : GoString
  CreatedAt : Int
  UpdatedAt : Int
deriving DecidableEq

/-- The zero value of `DefaultModel`. -/
def DefaultModel.zero : DefaultModel := ⟨NilObjectID, [], 0, 0⟩

/-- Outcome of a call that may panic. -/
inductive Outcome where
  | returned
  | panicked
deriving DecidableEq, Repr

/-- Method `DefaultModel.Creating`: stores the clock reading in `CreatedAt`, returns
a nil error. -/
def DefaultModel.Creating (model : DefaultModel) (now : Int) :
    DefaultModel × Option GoError :=
  ({ model with CreatedAt := now }, none)

/-- Method `DefaultModel.Saving`: stores the clock reading in `UpdatedAt`, returns a
nil error. -/
def DefaultModel.Saving (model : DefaultModel) (now : Int) :
    DefaultModel × Option GoError :=
  ({ model with UpdatedAt := now }, none)

/-- Method `DefaultModel.PrepareID`: a string is converted with `ObjectIDFromHex`; any
other value is returned as it is with a nil error. The receiver is not written. -/
def DefaultModel.PrepareID (model : DefaultModel) (id : GoAny) :
    DefaultModel × GoAny × Option GoError :=
  match id.asString with
  | some idStr =>
    let r := ObjectIDFromHex idStr
    (model, .objectID r.1, r.2)
  | none => (model, id, none)

/-- Method `DefaultModel.GetID`. -/
def DefaultModel.GetID (model : DefaultModel) : ObjectID := model.ObjectId

/-- Method `DefaultModel.GetIdStr`. -/
def DefaultModel.GetIdStr (model : DefaultModel) : GoString := model.Id

/-- Method `DefaultModel.SetID`: two statements, each with its own type assertion; a
failed assertion panics and leaves the receiver as the statements before it made it. -/
def DefaultModel.SetID (model : DefaultModel) (id : GoAny) : DefaultModel × Outcome :=
  match id.assertObjectID with
  | none => (model, .panicked)
  | some o =>
    let model1 := { model with ObjectId := o }
    match id.assertObjectID with
    | none => (model1, .panicked)
    | some o2 => ({ model1 with Id := o2.Hex }, .returned)

/-! ## `IDField` and `DateFields` (field.go) -/

/-- Struct `IDField`. -/
structure IDField where
  ID : ObjectID
deriving DecidableEq

/-- Struct `DateFields`. -/
structure DateFields where
  CreatedAt : Int
  UpdatedAt : Int
deriving DecidableEq

/-- Method `IDField.PrepareID`. -/
def IDField.PrepareID (f : IDField) (id : GoAny) : IDField × GoAny × Option GoError :=
  match id.asString with
  | some idStr =>
    let r := ObjectIDFromHex idStr
    (f, .objectID r.1, r.2)
  | none => (f, id, none)

/-- Method `DateFields.Creating`. -/
def DateFields.Creating (f : DateFields) (now : Int) : DateFields × Option GoError :=
  ({ f with CreatedAt := now }, none)

/-- Method `DateFields.Saving`. -/
def DateFields.Saving (f : DateFields) (now : Int) : DateFields × Option GoError :=
  ({ f with UpdatedAt := now }, none)

/-! ## Vocabulary of the properties -/

/-- A hexadecimal digit: `0`-`9`, `a`-`f` or `A`-`F`. -/
def isHexDigit (c : Byte) : Bool :=
  (0x30 ≤ c.val && c.val ≤ 0x39) || (0x61 ≤ c.val && c.val ≤ 0x66) ||
    (0x41 ≤ c.val && c.val ≤ 0x46)

/-- A hexadecimal digit that is not an upper-case letter: `0`-`9` or `a`-`f`. -/
def isLowerHexDigit (c : Byte) : Bool :=
  (0x30 ≤ c.val && c.val ≤ 0x39) || (0x61 ≤ c.val && c.val ≤ 0x66)

/-- The byte with an upper-case letter `A`-`Z` replaced by its lower-case letter. -/
def toLowerByte (c : Byte) : Byte :=
  if 0x41 ≤ c.val ∧ c.val ≤ 0x5a then toByte (c.val + 0x20) else c

/-- A run of `Saving` calls on one model, one call per clock reading, in order. -/
def savesFrom (model : DefaultModel) : List Int → DefaultModel
  | [] => model
  | t :: ts => savesFrom (model.Saving t).1 ts

/-- The hook sequence of a document's history: `Creating` at the reading `t0`, then
one `Saving` per reading of `ts`. -/
def createThenSaves (model : DefaultModel) (t0 : Int) (ts : List Int) : DefaultModel :=
  savesFrom (model.Creating t0).1 ts

/-- Twenty-four upper-case letters `A`. -/
def upperHexId : GoString := List.replicate 24 0x41

/-- The string `"0123456789abcdef01234567"`. -/
def lowerHexId : GoString :=
  [0x30, 0x31, 0x32, 0x33, 0x34, 0x35, 0x36, 0x37, 0x38, 0x39, 0x61, 0x62,
   0x63, 0x64, 0x65, 0x66, 0x30, 0x31, 0x32, 0x33, 0x34, 0x35, 0x36, 0x37]

/-- The string `"0123456789abcdefg1234567"`: 24 bytes, one of them the letter `g`. -/
def badCharId : GoString :=
  [0x30, 0x31, 0x32, 0x33, 0x34, 0x35, 0x36, 0x37, 0x38, 0x39, 0x61, 0x62,
   0x63, 0x64, 0x65, 0x66, 0x67, 0x31, 0x32, 0x33, 0x34, 0x35, 0x36, 0x37]

/-- A model with every field set. -/
def sampleModel : DefaultModel := ⟨copyOID [1, 2, 3], lowerHexId, 1700000000000, 1700000000500⟩

/-! ## MessagePack runtime (`github.com/tinylib/msgp/msgp`)

The generated methods of `model_gen.go` call the `msgp` runtime, which the repository
imports; its functions are embedded from the published sources. A slice is the list of
its bytes and a nil slice is the empty list; capacity is not part of the model. A
function with several results returns the tuple of them, with the values Go leaves in
the results on an error path. -/

/-- Conversion `byte(i)` of a signed integer: its low eight bits. -/
def byteOfInt (i : Int) : Byte := ⟨(i % 256).toNat, by omega⟩

/-- Conversion `intW(u)` of an unsigned value to the signed type of `w` bits. -/
def toSigned (w : Nat) (u : Nat) : Int :=
  if u % 2 ^ w < 2 ^ (w - 1) then ((u % 2 ^ w : Nat) : Int)
  else ((u % 2 ^ w : Nat) : Int) - 2 ^ w

/-- Whether an integer is a value of the type `int64`. -/
def isInt64 (i : Int) : Prop := -9223372036854775808 ≤ i ∧ i ≤ 9223372036854775807

instance (i : Int) : Decidable (isInt64 i) := by unfold isInt64; infer_instance

/-- Type `msgp.Type`, as far as `getType` returns it. -/
inductive MsgType where
  | InvalidType
  | StrType
  | BinType
  | MapType
  | ArrayType
  | Float64Type
  | Float32Type
  | BoolType
  | IntType
  | UintType
  | NilType
  | ExtensionType
deriving DecidableEq, Repr

/-- The field names the generated code passes to `msgp.WrapError`. -/
inductive FieldCtx where
  | Id
  | CreatedAt
  | UpdatedAt
deriving DecidableEq, Repr

/-- Errors of the `msgp` runtime: `ErrShortBytes`, `TypeError`, `InvalidPrefixError`,
`UintOverflow`, the failure of a write to the underlying writer, and an error wrapped
with context by `WrapError`. -/
inductive MsgpError where
  | ErrShortBytes
  | TypeError (method encoded : MsgType)
  | InvalidPrefixError (lead : Byte)
  | UintOverflow (value : Nat) (failedBitsize : Nat)
  | WriteFailed
  | Wrapped (cause : MsgpError) (ctx : List FieldCtx)
deriving DecidableEq, Repr

/-- Function `msgp.WrapError`: an error with the context added. `ErrShortBytes` is
returned as it is, without any context; an error that is wrapped already gets the new
context in front of its own; any other error is written as the cause with its
context. -/
def WrapError (err : MsgpError) (ctx : List FieldCtx) : MsgpError :=
  match err with
  | .ErrShortBytes => .ErrShortBytes
  | .Wrapped cause inner => .Wrapped cause (ctx ++ inner)
  | e => .Wrapped e ctx

/-- Size modes of `bytespec.extra`: a fixed count of following objects, or a size or
count read from the bytes after the lead byte. -/
inductive Varmode where
  | fixed (objects : Nat)
  | extra8
  | extra16
  | extra32
  | map16v
  | map32v
  | array16v
  | array32v
deriving DecidableEq, Repr

/-- Struct `bytespec`. -/
structure Bytespec where
  size : Nat
  extra : Varmode
  typ : MsgType
deriving DecidableEq, Repr

/-- Function `isfixint`. -/
def isfixint (b : Byte) : Bool := b.val >>> 7 == 0

/-- Function `isnfixint`. -/
def isnfixint (b : Byte) : Bool := b.val &&& 0xe0 == 0xe0

/-- Function `isfixstr`. -/
def isfixstr (b : Byte) : Bool := b.val &&& 0xe0 == 0xa0

/-- Function `isfixmap`. -/
def isfixmap (b : Byte) : Bool := b.val &&& 0xf0 == 0x80

/-- Function `rfixint`. -/
def rfixint (b : Byte) : Nat := b.val

/-- Function `rnfixint`: the lead byte read as an `int8`. -/
def rnfixint (b : Byte) : Int := toSigned 8 b.val

/-- Function `rfixstr`. -/
def rfixstr (b : Byte) : Nat := b.val &&& 0x1f

/-- Function `rfixmap`. -/
def rfixmap (b : Byte) : Nat := b.val &&& 0x0f

/-- Function `rfixarray`. -/
def rfixarray (b : Byte) : Nat := b.val &&& 0x0f

/-- Function `wfixint`. -/
def wfixint (u : Nat) : Byte := toByte (u &&& 0x7f)

/-- Function `wnfixint`: `byte(i) | mnfixint`. -/
def wnfixint (i : Int) : Byte := toByte ((byteOfInt i).val ||| 0xe0)

/-- Function `wfixstr`. -/
def wfixstr (u : Nat) : Byte := toByte ((u &&& 0x1f) ||| 0xa0)

/-- The table `sizes` of `elsize.go`, with the entries its `init` fills in. -/
def sizes (lead : Byte) : Bytespec :=
  let v := lead.val
  if v < 0x80 then ⟨1, .fixed 0, .IntType⟩
  else if v < 0x90 then ⟨1, .fixed (2 * rfixmap lead), .MapType⟩
  else if v < 0xa0 then ⟨1, .fixed (rfixarray lead), .ArrayType⟩
  else if v < 0xc0 then ⟨1 + rfixstr lead, .fixed 0, .StrType⟩
  else if v = 0xc0 then ⟨1, .fixed 0, .NilType⟩
  else if v = 0xc1 then ⟨0, .fixed 0, .InvalidType⟩
  else if v = 0xc2 then ⟨1, .fixed 0, .BoolType⟩
  else if v = 0xc3 then ⟨1, .fixed 0, .BoolType⟩
  else if v = 0xc4 then ⟨2, .extra8, .BinType⟩
  else if v = 0xc5 then ⟨3, .extra16, .BinType⟩
  else if v = 0xc6 then ⟨5, .extra32, .BinType⟩
  else if v = 0xc7 then ⟨3, .extra8, .ExtensionType⟩
  else if v = 0xc8 then ⟨4, .extra16, .ExtensionType⟩
  else if v = 0xc9 then ⟨6, .extra32, .ExtensionType⟩
  else if v = 0xca then ⟨5, .fixed 0, .Float32Type⟩
  else if v = 0xcb then ⟨9, .fixed 0, .Float64Type⟩
  else if v = 0xcc then ⟨2, .fixed 0, .UintType⟩
  else if v = 0xcd then ⟨3, .fixed 0, .UintType⟩
  else if v = 0xce then ⟨5, .fixed 0, .UintType⟩
  else if v = 0xcf then ⟨9, .fixed 0, .UintType⟩
  else if v = 0xd0 then ⟨2, .fixed 0, .IntType⟩
  else if v = 0xd1 then ⟨3, .fixed 0, .IntType⟩
  else if v = 0xd2 then ⟨5, .fixed 0, .IntType⟩
  else if v = 0xd3 then ⟨9, .fixed 0, .IntType⟩
  else if v = 0xd4 then ⟨3, .fixed 0, .ExtensionType⟩
  else if v = 0xd5 then ⟨4, .fixed 0, .ExtensionType⟩
  else if v = 0xd6 then ⟨6, .fixed 0, .ExtensionType⟩
  else if v = 0xd7 then ⟨10, .fixed 0, .ExtensionType⟩
  else if v = 0xd8 then ⟨18, .fixed 0, .ExtensionType⟩
  else if v = 0xd9 then ⟨2, .extra8, .StrType⟩
  else if v = 0xda then ⟨3, .extra16, .StrType⟩
  else if v = 0xdb then ⟨5, .extra32, .StrType⟩
  else if v = 0xdc then ⟨3, .array16v, .ArrayType⟩
  else if v = 0xdd then ⟨5, .array32v, .ArrayType⟩
  else if v = 0xde then ⟨3, .map16v, .MapType⟩
  else if v = 0xdf then ⟨5, .map32v, .MapType⟩
  else ⟨1, .fixed 0, .IntType⟩

/-- Function `getType`. -/
def getType (lead : Byte) : MsgType := (sizes lead).typ

/-- Function `badPrefix`. -/
def badPrefix (want : MsgType) (lead : Byte) : MsgpError :=
  if getType lead = .InvalidType then .InvalidPrefixError lead
  else .TypeError want (getType lead)

/-- The byte `b[i]` of a slice. -/
def byteAt (b : List Byte) (i : Nat) : Nat := (b.getD i 0).val

/-- Function `big.Uint16` on `b[1:]`, and `getMuint16`: the bytes 1 and 2, big endian. -/
def getMuint16 (b : List Byte) : Nat := (byteAt b 1 <<< 8) ||| byteAt b 2

/-- Function `big.Uint32` on `b[1:]`, and `getMuint32`: the bytes 1 to 4, big endian. -/
def getMuint32 (b : List Byte) : Nat :=
  (byteAt b 1 <<< 24) ||| (byteAt b 2 <<< 16) ||| (byteAt b 3 <<< 8) ||| byteAt b 4

/-- Function `getMuint64`: the bytes 1 to 8, big endian. -/
def getMuint64 (b : List Byte) : Nat :=
  (byteAt b 1 <<< 56) ||| (byteAt b 2 <<< 48) ||| (byteAt b 3 <<< 40) |||
    (byteAt b 4 <<< 32) ||| (byteAt b 5 <<< 24) ||| (byteAt b 6 <<< 16) |||
    (byteAt b 7 <<< 8) ||| byteAt b 8

/-- Function `getMuint8`. -/
def getMuint8 (b : List Byte) : Nat := byteAt b 1

/-- Function `getMint8`. -/
def getMint8 (b : List Byte) : Int := toSigned 8 (byteAt b 1)

/-- Function `getMint16`. -/
def getMint16 (b : List Byte) : Int := toSigned 16 (getMuint16 b)

/-- Function `getMint32`. -/
def getMint32 (b : List Byte) : Int := toSigned 32 (getMuint32 b)

/-- Function `getMint64`. -/
def getMint64 (b : List Byte) : Int := toSigned 64 (getMuint64 b)

/-- Function `prefixu8`: the lead byte and a length of one byte. -/
def prefixu8 (pre : Byte) (sz : Nat) : List Byte := [pre, toByte sz]

/-- Function `prefixu16`: the lead byte and a length of two bytes, big endian. -/
def prefixu16 (pre : Byte) (sz : Nat) : List Byte := [pre, toByte (sz >>> 8), toByte sz]

/-- Function `prefixu32`: the lead byte and a length of four bytes, big endian. -/
def prefixu32 (pre : Byte) (sz : Nat) : List Byte :=
  [pre, toByte (sz >>> 24), toByte (sz >>> 16), toByte (sz >>> 8), toByte sz]

/-- Function `putMint8`. -/
def putMint8 (i : Int) : List Byte := [0xd0, byteOfInt i]

/-- Function `putMint16`. -/
def putMint16 (i : Int) : List Byte := [0xd1, byteOfInt (i >>> (8 : Nat)), byteOfInt i]

/-- Function `putMint32`. -/
def putMint32 (i : Int) : List Byte :=
  [0xd2, byteOfInt (i >>> (24 : Nat)), byteOfInt (i >>> (16 : Nat)), byteOfInt (i >>> (8 : Nat)), byteOfInt i]

/-- Function `putMint64`. -/
def putMint64 (i : Int) : List Byte :=
  [0xd3, byteOfInt (i >>> (56 : Nat)), byteOfInt (i >>> (48 : Nat)), byteOfInt (i >>> (40 : Nat)),
    byteOfInt (i >>> (32 : Nat)), byteOfInt (i >>> (24 : Nat)), byteOfInt (i >>> (16 : Nat)), byteOfInt (i >>> (8 : Nat)),
    byteOfInt i]

/-- Function `msgp.Require`: the same slice, with room for `sz` more bytes. -/
def Require (b : List Byte) (_sz : Nat) : List Byte := b

/-- Function `msgp.AppendString`: the prefix chosen by the length of the string, with
the length converted to the width of the prefix, then the bytes of the string. -/
def AppendString (b : List Byte) (s : GoString) : List Byte :=
  let sz := s.length
  if sz ≤ 31 then b ++ [wfixstr sz] ++ s
  else if sz ≤ 255 then b ++ prefixu8 0xd9 sz ++ s
  else if sz ≤ 65535 then b ++ prefixu16 0xda sz ++ s
  else b ++ prefixu32 0xdb sz ++ s

/-- Function `msgp.AppendInt64`. -/
def AppendInt64 (b : List Byte) (i : Int) : List Byte :=
  if i ≥ 0 then
    if i ≤ 127 then b ++ [wfixint i.toNat]
    else if i ≤ 32767 then b ++ putMint16 i
    else if i ≤ 2147483647 then b ++ putMint32 i
    else b ++ putMint64 i
  else
    if i ≥ -32 then b ++ [wnfixint i]
    else if i ≥ -128 then b ++ putMint8 i
    else if i ≥ -32768 then b ++ putMint16 i
    else if i ≥ -2147483648 then b ++ putMint32 i
    else b ++ putMint64 i

/-- Function `getSize`: the size of the object at the head of `b` and the count of
objects that follow it as its elements. -/
def getSize (b : List Byte) : Nat × Nat × Option MsgpError :=
  match b with
  | [] => (0, 0, some .ErrShortBytes)
  | lead :: _ =>
    let spec := sizes lead
    if spec.size = 0 then (0, 0, some (.InvalidPrefixError lead))
    else
      match spec.extra with
      | .fixed n => (spec.size, n, none)
      | mode =>
        if b.length < spec.size then (0, 0, some .ErrShortBytes)
        else
          match mode with
          | .extra8 => (spec.size + byteAt b 1, 0, none)
          | .extra16 => (spec.size + getMuint16 b, 0, none)
          | .extra32 => (spec.size + getMuint32 b, 0, none)
          | .map16v => (spec.size, 2 * getMuint16 b, none)
          | .map32v => (spec.size, 2 * getMuint32 b, none)
          | .array16v => (spec.size, getMuint16 b, none)
          | .array32v => (spec.size, getMuint32 b, none)
          | .fixed n => (spec.size, n, none)

/-- The loop of `msgp.Skip` over `count` objects: the object at the head is passed
over and the objects it holds are added to the count. `Skip` is recursive on the
objects an array or a map holds; skipping them one after the other is the same
traversal. Every step takes at least one byte, so `fuel` above the length of `b` is
never used up. -/
def skipObjects : Nat → Nat → List Byte → List Byte × Option MsgpError
  | _, 0, b => (b, none)
  | 0, _ + 1, b => (b, some .ErrShortBytes)
  | fuel + 1, count + 1, b =>
    match getSize b with
    | (_, _, some e) => (b, some e)
    | (sz, asz, none) =>
      if b.length < sz then (b, some .ErrShortBytes)
      else skipObjects fuel (count + asz) (b.drop sz)

/-- Function `msgp.Skip`: passes over one object, with all it holds. -/
def Skip (b : List Byte) : List Byte × Option MsgpError :=
  skipObjects (b.length + 1) 1 b

/-- Function `msgp.ReadMapHeaderBytes`. -/
def ReadMapHeaderBytes (b : List Byte) : Nat × List Byte × Option MsgpError :=
  match b with
  | [] => (0, [], some .ErrShortBytes)
  | lead :: _ =>
    if isfixmap lead then (rfixmap lead, b.drop 1, none)
    else if lead = 0xde then
      if b.length < 3 then (0, [], some .ErrShortBytes)
      else (getMuint16 b, b.drop 3, none)
    else if lead = 0xdf then
      if b.length < 5 then (0, [], some .ErrShortBytes)
      else (getMuint32 b, b.drop 5, none)
    else (0, [], some (badPrefix .MapType lead))

/-- Function `msgp.ReadStringZC`. -/
def ReadStringZC (b : List Byte) : List Byte × List Byte × Option MsgpError :=
  match b with
  | [] => ([], [], some .ErrShortBytes)
  | lead :: _ =>
    let body (read : Nat) (b1 : List Byte) : List Byte × List Byte × Option MsgpError :=
      if b1.length < read then ([], [], some .ErrShortBytes)
      else (b1.take read, b1.drop read, none)
    if isfixstr lead then body (rfixstr lead) (b.drop 1)
    else if lead = 0xd9 then
      if b.length < 2 then ([], [], some .ErrShortBytes)
      else body (byteAt b 1) (b.drop 2)
    else if lead = 0xda then
      if b.length < 3 then ([], [], some .ErrShortBytes)
      else body (getMuint16 b) (b.drop 3)
    else if lead = 0xdb then
      if b.length < 5 then ([], [], some .ErrShortBytes)
      else body (getMuint32 b) (b.drop 5)
    else ([], [], some (.TypeError .StrType (getType lead)))

/-- Function `msgp.ReadStringBytes`. -/
def ReadStringBytes (b : List Byte) : GoString × List Byte × Option MsgpError :=
  ReadStringZC b

/-- Function `msgp.ReadBytesZC`. -/
def ReadBytesZC (b : List Byte) : List Byte × List Byte × Option MsgpError :=
  match b with
  | [] => ([], [], some .ErrShortBytes)
  | lead :: _ =>
    let body (read : Nat) (b1 : List Byte) : List Byte × List Byte × Option MsgpError :=
      if b1.length < read then ([], [], some .ErrShortBytes)
      else (b1.take read, b1.drop read, none)
    if lead = 0xc4 then
      if b.length < 2 then ([], [], some .ErrShortBytes)
      else body (byteAt b 1) (b.drop 2)
    else if lead = 0xc5 then
      if b.length < 3 then ([], [], some .ErrShortBytes)
      else body (getMuint16 b) (b.drop 3)
    else if lead = 0xc6 then
      if b.length < 5 then ([], [], some .ErrShortBytes)
      else body (getMuint32 b) (b.drop 5)
    else ([], [], some (badPrefix .BinType lead))

/-- Function `msgp.ReadMapKeyZC`: a key is a string, or else a `bin` object. -/
def ReadMapKeyZC (b : List Byte) : List Byte × List Byte × Option MsgpError :=
  match ReadStringZC b with
  | (o, x, none) => (o, x, none)
  | (_, _, some err) =>
    match err with
    | .TypeError _ .BinType => ReadBytesZC b
    | _ => ([], b, some err)

/-- Function `msgp.ReadInt64Bytes`. -/
def ReadInt64Bytes (b : List Byte) : Int × List Byte × Option MsgpError :=
  match b with
  | [] => (0, [], some .ErrShortBytes)
  | lead :: _ =>
    if isfixint lead then ((rfixint lead : Nat), b.drop 1, none)
    else if isnfixint lead then (rnfixint lead, b.drop 1, none)
    else if lead = 0xd0 then
      if b.length < 2 then (0, [], some .ErrShortBytes)
      else (getMint8 b, b.drop 2, none)
    else if lead = 0xcc then
      if b.length < 2 then (0, [], some .ErrShortBytes)
      else ((getMuint8 b : Nat), b.drop 2, none)
    else if lead = 0xd1 then
      if b.length < 3 then (0, [], some .ErrShortBytes)
      else (getMint16 b, b.drop 3, none)
    else if lead = 0xcd then
      if b.length < 3 then (0, [], some .ErrShortBytes)
      else ((getMuint16 b : Nat), b.drop 3, none)
    else if lead = 0xd2 then
      if b.length < 5 then (0, [], some .ErrShortBytes)
      else (getMint32 b, b.drop 5, none)
    else if lead = 0xce then
      if b.length < 5 then (0, [], some .ErrShortBytes)
      else ((getMuint32 b : Nat), b.drop 5, none)
    else if lead = 0xd3 then
      if b.length < 9 then (0, [], some .ErrShortBytes)
      else (getMint64 b, b.drop 9, none)
    else if lead = 0xcf then
      if b.length < 9 then (0, [], some .ErrShortBytes)
      else if getMuint64 b > 9223372036854775807 then
        (0, [], some (.UintOverflow (getMuint64 b) 64))
      else ((getMuint64 b : Nat), b.drop 9, none)
    else (0, [], some (badPrefix .IntType lead))

/-! ## Generated MessagePack methods of `DefaultModel` (model_gen.go) -/

/-- The map key `"id"`. -/
def keyId : List Byte := [0x69, 0x64]

/-- The map key `"create_time"`. -/
def keyCreateTime : List Byte :=
  [0x63, 0x72, 0x65, 0x61, 0x74, 0x65, 0x5f, 0x74, 0x69, 0x6d, 0x65]

/-- The map key `"last_modify_time"`. -/
def keyLastModifyTime : List Byte :=
  [0x6c, 0x61, 0x73, 0x74, 0x5f, 0x6d, 0x6f, 0x64, 0x69, 0x66, 0x79, 0x5f, 0x74, 0x69,
    0x6d, 0x65]

/-- Method `DefaultModel.Msgsize`, with `msgp.StringPrefixSize = 5` and
`msgp.Int64Size = 9`. -/
def DefaultModel.Msgsize (z : DefaultModel) : Nat :=
  1 + 3 + 5 + z.Id.length + 12 + 9 + 17 + 9

/-- Method `DefaultModel.MarshalMsg`. -/
def DefaultModel.MarshalMsg (z : DefaultModel) (b : List Byte) :
    List Byte × Option MsgpError :=
  let o := Require b z.Msgsize
  let o := o ++ [0x83, 0xa2, 0x69, 0x64]
  let o := AppendString o z.Id
  let o := o ++ [0xab, 0x63, 0x72, 0x65, 0x61, 0x74, 0x65, 0x5f, 0x74, 0x69, 0x6d, 0x65]
  let o := AppendInt64 o z.CreatedAt
  let o := o ++ [0xb0, 0x6c, 0x61, 0x73, 0x74, 0x5f, 0x6d, 0x6f, 0x64, 0x69, 0x66, 0x79,
    0x5f, 0x74, 0x69, 0x6d, 0x65]
  let o := AppendInt64 o z.UpdatedAt
  (o, none)

/-- The loop `for zb0001 > 0` of `DefaultModel.UnmarshalMsg`, with `zb0001` entries
left to read. A field is assigned the value its reader returns, also when the reader
fails; on every error path the result `o` is still nil. -/
def unmarshalFields : Nat → DefaultModel → List Byte →
    DefaultModel × List Byte × Option MsgpError
  | 0, z, bts => (z, bts, none)
  | zb0001 + 1, z, bts =>
    match ReadMapKeyZC bts with
    | (_, _, some err) => (z, [], some (WrapError err []))
    | (field, bts, none) =>
      if field = keyId then
        match ReadStringBytes bts with
        | (v, _, some err) => ({ z with Id := v }, [], some (WrapError err [.Id]))
        | (v, bts, none) => unmarshalFields zb0001 { z with Id := v } bts
      else if field = keyCreateTime then
        match ReadInt64Bytes bts with
        | (v, _, some err) =>
          ({ z with CreatedAt := v }, [], some (WrapError err [.CreatedAt]))
        | (v, bts, none) => unmarshalFields zb0001 { z with CreatedAt := v } bts
      else if field = keyLastModifyTime then
        match ReadInt64Bytes bts with
        | (v, _, some err) =>
          ({ z with UpdatedAt := v }, [], some (WrapError err [.UpdatedAt]))
        | (v, bts, none) => unmarshalFields zb0001 { z with UpdatedAt := v } bts
      else
        match Skip bts with
        | (_, some err) => (z, [], some (WrapError err []))
        | (bts, none) => unmarshalFields zb0001 z bts

/-- Method `DefaultModel.UnmarshalMsg`: the receiver after the call, the leftover
bytes `o` and the error. -/
def DefaultModel.UnmarshalMsg (z : DefaultModel) (bts : List Byte) :
    DefaultModel × List Byte × Option MsgpError :=
  match ReadMapHeaderBytes bts with
  | (_, _, some err) => (z, [], some (WrapError err []))
  | (zb0001, bts, none) => unmarshalFields zb0001 z bts

/-! ## `msgp.Writer` and `DefaultModel.EncodeMsg` -/

/-- Conversion `uintW(i)` of a signed integer: its value modulo `2 ^ w`. -/
def toUnsigned (w : Nat) (i : Int) : Nat := (i % (2 ^ w : Nat)).toNat

/-- Struct `msgp.Writer` over an underlying `io.Writer`: `sink` holds the bytes the
underlying writer has taken, `room` is the count of bytes it still takes before its
`Write` fails (`none`: it never fails), `buf` holds the buffered bytes `mw.buf[:wloc]`
and `bufsize` is `len(mw.buf)`. -/
structure Writer where
  sink : List Byte
  room : Option Nat
  buf : List Byte
  bufsize : Nat
deriving DecidableEq

/-- A call `Write(p)` of the underlying writer: it takes all of `p`, or as much as it
has room for and fails. The results are the writer, the count of bytes taken and the
error. -/
def Writer.underlyingWrite (mw : Writer) (p : List Byte) : Writer × Nat × Option MsgpError :=
  match mw.room with
  | none => ({ mw with sink := mw.sink ++ p }, p.length, none)
  | some r =>
    if p.length ≤ r then
      ({ mw with sink := mw.sink ++ p, room := some (r - p.length) }, p.length, none)
    else ({ mw with sink := mw.sink ++ p.take r, room := some 0 }, r, some .WriteFailed)

/-- Method `Writer.flush`: hands the buffered bytes to the underlying writer; after a
failure the bytes not taken stay in the buffer. -/
def Writer.flush (mw : Writer) : Writer × Option MsgpError :=
  if mw.buf.length = 0 then (mw, none)
  else
    match mw.underlyingWrite mw.buf with
    | (mw1, n, some err) => ({ mw1 with buf := mw.buf.drop n }, some err)
    | (mw1, _, none) => ({ mw1 with buf := [] }, none)

/-- Method `Writer.avail`. -/
def Writer.avail (mw : Writer) : Nat := mw.bufsize - mw.buf.length

/-- The common shape of `Writer.Append`, `push`, `prefix8`, `prefix16`, `prefix32` and
`prefix64`: flush when fewer than the needed bytes are free, then copy the bytes into
the buffer, as many as fit. -/
def Writer.put (mw : Writer) (b : List Byte) : Writer × Option MsgpError :=
  if mw.avail < b.length then
    match mw.flush with
    | (mw1, some err) => (mw1, some err)
    | (mw1, none) => ({ mw1 with buf := mw1.buf ++ b.take mw1.avail }, none)
  else ({ mw with buf := mw.buf ++ b.take mw.avail }, none)

/-- Method `Writer.Append`. -/
def Writer.Append (mw : Writer) (b : List Byte) : Writer × Option MsgpError := mw.put b

/-- Method `Writer.push`. -/
def Writer.push (mw : Writer) (b : Byte) : Writer × Option MsgpError := mw.put [b]

/-- Method `Writer.prefix8`. -/
def Writer.prefix8 (mw : Writer) (b : Byte) (u : Nat) : Writer × Option MsgpError :=
  mw.put (prefixu8 b u)

/-- Method `Writer.prefix16`. -/
def Writer.prefix16 (mw : Writer) (b : Byte) (u : Nat) : Writer × Option MsgpError :=
  mw.put (prefixu16 b u)

/-- Method `Writer.prefix32`. -/
def Writer.prefix32 (mw : Writer) (b : Byte) (u : Nat) : Writer × Option MsgpError :=
  mw.put (prefixu32 b u)

/-- Method `Writer.prefix64`. -/
def Writer.prefix64 (mw : Writer) (b : Byte) (u : Nat) : Writer × Option MsgpError :=
  mw.put [b, toByte (u >>> 56), toByte (u >>> 48), toByte (u >>> 40), toByte (u >>> 32),
    toByte (u >>> 24), toByte (u >>> 16), toByte (u >>> 8), toByte u]

/-- Method `Writer.writeString`: a string longer than the buffer goes to the
underlying writer directly, after a flush; a shorter one is buffered. -/
def Writer.writeString (mw : Writer) (s : GoString) : Writer × Option MsgpError :=
  if s.length > mw.bufsize then
    match mw.flush with
    | (mw1, some err) => (mw1, some err)
    | (mw1, none) =>
      match mw1.underlyingWrite s with
      | (mw2, _, err) => (mw2, err)
  else mw.put s

/-- Method `Writer.WriteString`: the length is converted to `uint32` first. -/
def Writer.WriteString (mw : Writer) (s : GoString) : Writer × Option MsgpError :=
  let sz := s.length % 4294967296
  let r :=
    if sz ≤ 31 then mw.push (wfixstr sz)
    else if sz ≤ 255 then mw.prefix8 0xd9 sz
    else if sz ≤ 65535 then mw.prefix16 0xda sz
    else mw.prefix32 0xdb sz
  match r with
  | (mw1, some err) => (mw1, some err)
  | (mw1, none) => mw1.writeString s

/-- Method `Writer.WriteInt64`. -/
def Writer.WriteInt64 (mw : Writer) (i : Int) : Writer × Option MsgpError :=
  if i ≥ 0 then
    if i ≤ 127 then mw.push (wfixint i.toNat)
    else if i ≤ 32767 then mw.prefix16 0xd1 (toUnsigned 16 i)
    else if i ≤ 2147483647 then mw.prefix32 0xd2 (toUnsigned 32 i)
    else mw.prefix64 0xd3 (toUnsigned 64 i)
  else
    if i ≥ -32 then mw.push (wnfixint i)
    else if i ≥ -128 then mw.prefix8 0xd0 (toUnsigned 8 i)
    else if i ≥ -32768 then mw.prefix16 0xd1 (toUnsigned 16 i)
    else if i ≥ -2147483648 then mw.prefix32 0xd2 (toUnsigned 32 i)
    else mw.prefix64 0xd3 (toUnsigned 64 i)

/-- Method `DefaultModel.EncodeMsg`. -/
def DefaultModel.EncodeMsg (z : DefaultModel) (en : Writer) : Writer × Option MsgpError :=
  match en.Append [0x83, 0xa2, 0x69, 0x64] with
  | (en, some err) => (en, some err)
  | (en, none) =>
    match en.WriteString z.Id with
    | (en, some err) => (en, some (WrapError err [.Id]))
    | (en, none) =>
      match en.Append
          [0xab, 0x63, 0x72, 0x65, 0x61, 0x74, 0x65, 0x5f, 0x74, 0x69, 0x6d, 0x65] with
      | (en, some err) => (en, some err)
      | (en, none) =>
        match en.WriteInt64 z.CreatedAt with
        | (en, some err) => (en, some (WrapError err [.CreatedAt]))
        | (en, none) =>
          match en.Append
              [0xb0, 0x6c, 0x61, 0x73, 0x74, 0x5f, 0x6d, 0x6f, 0x64, 0x69, 0x66, 0x79,
                0x5f, 0x74, 0x69, 0x6d, 0x65] with
          | (en, some err) => (en, some err)
          | (en, none) =>
            match en.WriteInt64 z.UpdatedAt with
            | (en, some err) => (en, some (WrapError err [.UpdatedAt]))
            | (en, none) => (en, none)

/-- Function `msgp.NewWriterSize`: a buffer of at least 18 bytes, nothing written. -/
def NewWriterSize (room : Option Nat) (sz : Nat) : Writer :=
  ⟨[], room, [], if sz < 18 then 18 else sz⟩

/-- The bytes written to a `Writer` so far, in order: those the underlying writer has
taken and those still buffered. -/
def Writer.written (mw : Writer) : List Byte := mw.sink ++ mw.buf

/-- The invariant of a `Writer` made by `NewWriterSize`: the buffer has at least 18
bytes and holds no more than its size. -/
def Writer.wellFormed (mw : Writer) : Prop := 18 ≤ mw.bufsize ∧ mw.buf.length ≤ mw.bufsize

instance (mw : Writer) : Decidable mw.wellFormed := by
  unfold Writer.wellFormed; infer_instance

/-! ## Sequences of operations on one model -/

/-- One call on a `DefaultModel` in its lifetime, with its arguments and, for a hook,
the clock reading. -/
inductive ModelOp where
  | SetID (id : GoAny)
  | PrepareID (id : GoAny)
  | Creating (now : Int)
  | Saving (now : Int)
  | UnmarshalMsg (bts : List Byte)
deriving DecidableEq

/-- The model after one call; a call that panics leaves it as the panic found it. -/
def ModelOp.apply (m : DefaultModel) : ModelOp → DefaultModel
  | .SetID id => (m.SetID id).1
  | .PrepareID id => (m.PrepareID id).1
  | .Creating now => (m.Creating now).1
  | .Saving now => (m.Saving now).1
  | .UnmarshalMsg bts => (m.UnmarshalMsg bts).1

/-- The model after a sequence of calls, in order. -/
def runOps (m : DefaultModel) (ops : List ModelOp) : DefaultModel :=
  ops.foldl ModelOp.apply m

/-- Whether the call is a `SetID` with an ObjectID, the call that stores an identifier. -/
def ModelOp.storesID : ModelOp → Bool
  | .SetID id => id.isObjectID
  | _ => false

/-- The keys of the first `n` entries of a map, as far as they can be read: a key is
read with `ReadMapKeyZC` and its value is passed over with `Skip`. -/
def entryKeys : Nat → List Byte → List (List Byte)
  | 0, _ => []
  | n + 1, bts =>
    match ReadMapKeyZC bts with
    | (_, _, some _) => []
    | (field, bts1, none) =>
      match Skip bts1 with
      | (_, some _) => [field]
      | (bts2, none) => field :: entryKeys n bts2

/-- The keys that appear in a message: the keys of the entries of its map. -/
def messageKeys (bts : List Byte) : List (List Byte) :=
  match ReadMapHeaderBytes bts with
  | (_, _, some _) => []
  | (n, bts1, none) => entryKeys n bts1

/-- The first `n` entries of a map, as far as they can be read, each as its key and the
bytes from its value on: a key is read with `ReadMapKeyZC` and its value is passed over
with `Skip`, whatever the key is. -/
def entryValues : Nat → List Byte → List (List Byte × List Byte)
  | 0, _ => []
  | n + 1, bts =>
    match ReadMapKeyZC bts with
    | (_, _, some _) => []
    | (field, bts1, none) =>
      match Skip bts1 with
      | (_, some _) => [(field, bts1)]
      | (bts2, none) => (field, bts1) :: entryValues n bts2

/-- The bytes that follow the first `n` entries of a map, where every one of them can
be passed over: the key with `ReadMapKeyZC`, the value with `Skip`. -/
def afterEntries : Nat → List Byte → Option (List Byte)
  | 0, bts => some bts
  | n + 1, bts =>
    match ReadMapKeyZC bts with
    | (_, _, some _) => none
    | (_, bts1, none) =>
      match Skip bts1 with
      | (_, some _) => none
      | (bts2, none) => afterEntries n bts2

/-- The entries of a message: the entries of its map, in their order. -/
def messageEntries (bts : List Byte) : List (List Byte × List Byte) :=
  match ReadMapHeaderBytes bts with
  | (_, _, some _) => []
  | (n, bts1, none) => entryValues n bts1

/-- The bytes that follow a message, where its header can be read and every entry of
its map can be passed over. -/
def messageRest (bts : List Byte) : Option (List Byte) :=
  match ReadMapHeaderBytes bts with
  | (_, _, some _) => none
  | (n, bts1, none) => afterEntries n bts1

/-- The value bytes of the last entry under `key`, where there is one. -/
def lastValueOf (key : List Byte) : List (List Byte × List Byte) → Option (List Byte)
  | [] => none
  | e :: es =>
    match lastValueOf key es with
    | some vb => some vb
    | none => if e.1 = key then some e.2 else none

/-- Whether the value of an entry is one the reader for its key accepts: a string under
`"id"`, an integer that fits `int64` under `"create_time"` and `"last_modify_time"`,
anything under another key. -/
def valueDecodes (e : List Byte × List Byte) : Prop :=
  if e.1 = keyId then (ReadStringBytes e.2).2.2 = none
  else if e.1 = keyCreateTime then (ReadInt64Bytes e.2).2.2 = none
  else if e.1 = keyLastModifyTime then (ReadInt64Bytes e.2).2.2 = none
  else True

instance (e : List Byte × List Byte) : Decidable (valueDecodes e) := by
  unfold valueDecodes; infer_instance

/-- The assignment the loop of `UnmarshalMsg` makes at one entry: the field of the
entry's key gets the value its reader returns, and an entry under another key assigns
nothing. -/
def applyEntry (z : DefaultModel) (e : List Byte × List Byte) : DefaultModel :=
  if e.1 = keyId then { z with Id := (ReadStringBytes e.2).1 }
  else if e.1 = keyCreateTime then { z with CreatedAt := (ReadInt64Bytes e.2).1 }
  else if e.1 = keyLastModifyTime then { z with UpdatedAt := (ReadInt64Bytes e.2).1 }
  else z

/-! ## Transactions

`Transaction`, `TransactionWithCtx`, the collection type and the test's `Doc` are not
among the source files; only `transaction_test.go` calls them. -/

/-- Modelled from the spec: the error taxonomy of section 7 as far as a transaction can
meet it, with the errors the session reports for a commit or abort out of order. -/
inductive TxError where
  | SessionAcquisitionError
  | TransactionStartError
  | HookFailure
  | StorageError
  | NoTransactionStarted
  | CommitAfterAbort
  | AbortAfterCommit
  | AbortTwice
deriving DecidableEq, Repr

/-- Modelled from the spec: the document of the test scenarios, `{Name, Age}` composed
with the default model. -/
structure Doc where
  model : DefaultModel
  Name : GoString
  Age : Int
deriving DecidableEq

/-- Modelled from the spec: the execution context a caller supplies, or the
background one `Transaction` makes. -/
inductive ExecCtx where
  | background
  | supplied (deadline : Option Int)
deriving DecidableEq, Repr

/-- Modelled from the spec: the transaction of a session; at most one is active. -/
inductive TxStatus where
  | none
  | inProgress
  | committed
  | aborted
deriving DecidableEq, Repr

/-- Modelled from the spec: a session on the storage collaborator with its
session-bound context. `collection` holds the documents a count outside the session
sees, `pending` the documents created under the transaction in progress. -/
structure Session where
  parent : ExecCtx
  status : TxStatus
  pending : List Doc
  collection : List Doc
deriving DecidableEq

/-- Modelled from the spec: what the storage collaborator answers to the calls of one
run: whether a session is acquired, the transaction starts, a create and a commit
succeed, the identifier given to a created document, and the two clock readings of
the hooks. -/
structure Collaborator where
  acquire : Option TxError
  start : Option TxError
  insert : Option TxError
  commit : Option TxError
  insertedID : ObjectID
  nowCreating : Int
  nowSaving : Int

/-- Modelled from the spec: `CreateWithCtx` of the collection (sections 4.2 and 7):
`Creating`, then `Saving`, a hook error stops before the storage call; then the create,
which under a transaction in progress is pending until the commit; then the identifier
is assigned. -/
def CreateWithCtx (env : Collaborator) (sc : Session) (d : Doc) :
    Session × Doc × Option TxError :=
  match d.model.Creating env.nowCreating with
  | (m1, some _) => (sc, { d with model := m1 }, some .HookFailure)
  | (m1, none) =>
    match m1.Saving env.nowSaving with
    | (m2, some _) => (sc, { d with model := m2 }, some .HookFailure)
    | (m2, none) =>
      match env.insert with
      | some err => (sc, { d with model := m2 }, some err)
      | none =>
        let d1 : Doc := { d with model := (m2.SetID (.objectID env.insertedID)).1 }
        if sc.status = .inProgress then
          ({ sc with pending := sc.pending ++ [d1] }, d1, none)
        else ({ sc with collection := sc.collection ++ [d1] }, d1, none)

/-- Modelled from the spec: `CommitTransaction` of the session: the pending creates
take effect in the collection. -/
def CommitTransaction (env : Collaborator) (s : Session) : Session × Option TxError :=
  match s.status with
  | .none => (s, some .NoTransactionStarted)
  | .aborted => (s, some .CommitAfterAbort)
  | .committed => (s, none)
  | .inProgress =>
    match env.commit with
    | some err => (s, some err)
    | none =>
      ({ s with status := .committed, collection := s.collection ++ s.pending,
                pending := [] }, none)

/-- Modelled from the spec: `AbortTransaction` of the session: the pending creates are
dropped. -/
def AbortTransaction (s : Session) : Session × Option TxError :=
  match s.status with
  | .none => (s, some .NoTransactionStarted)
  | .committed => (s, some .AbortAfterCommit)
  | .aborted => (s, some .AbortTwice)
  | .inProgress => ({ s with status := .aborted, pending := [] }, none)

/-- Modelled from the spec: the release of the session on every exit path; a
transaction still in progress is aborted. -/
def releaseSession (s : Session) : Session :=
  if s.status = .inProgress then { s with status := .aborted, pending := [] } else s

/-- Modelled from the spec: `TransactionWithCtx(ctx, fn)` (section 4.5): acquire a
session, start a transaction, invoke `fn` with the session, release the session and
return the error of `fn` unchanged. The results are the collection afterwards and the
error. -/
def TransactionWithCtx (env : Collaborator) (ctx : ExecCtx) (collection : List Doc)
    (fn : Session → Session × Option TxError) : List Doc × Option TxError :=
  match env.acquire with
  | some err => (collection, some err)
  | none =>
    match env.start with
    | some err => (collection, some err)
    | none =>
      match fn ⟨ctx, .inProgress, [], collection⟩ with
      | (s, err) => ((releaseSession s).collection, err)

/-- Modelled from the spec: `Transaction(fn)`, which makes a background context. -/
def Transaction (env : Collaborator) (collection : List Doc)
    (fn : Session → Session × Option TxError) : List Doc × Option TxError :=
  TransactionWithCtx env .background collection fn

/-- Modelled from the spec: `CountDocuments` with the empty filter, outside the
session. -/
def CountDocuments (collection : List Doc) : Int := collection.length

/-- The function of `TestTransactionCommit`: create the document, return its error, or
else end with `CommitTransaction`. -/
def createThenCommit (env : Collaborator) (d : Doc) (session : Session) :
    Session × Option TxError :=
  match CreateWithCtx env session d with
  | (sc, _, some err) => (sc, some err)
  | (sc, _, none) => CommitTransaction env sc

/-- The function of `TestTransactionAbort` and `TestTransactionWithCtx`: create the
document, return its error, or else end with `AbortTransaction`. -/
def createThenAbort (env : Collaborator) (d : Doc) (session : Session) :
    Session × Option TxError :=
  match CreateWithCtx env session d with
  | (sc, _, some err) => (sc, some err)
  | (sc, _, none) => AbortTransaction sc

/-! ## Concrete inputs -/

/-- A second identifier. -/
def otherOID : ObjectID := copyOID [4, 5, 6]

/-- An `Id` of `2 ^ 32` bytes, each the letter `a`. -/
def hugeId : GoString := List.replicate 4294967296 0x61

/-- The document `{Name: "check", Age: 10}` of the test scenarios. -/
def checkDoc : Doc := ⟨DefaultModel.zero, [0x63, 0x68, 0x65, 0x63, 0x6b], 10⟩

/-- A storage collaborator whose calls all succeed. -/
def workingStore : Collaborator := ⟨none, none, none, none, otherOID, 1700000000000, 1700000000001⟩

/-- A message with the one entry `"name": 7`, under a key the model does not have. -/
def foreignMessage : List Byte := [0x81, 0xa4, 0x6e, 0x61, 0x6d, 0x65, 0x07]

/-- The message `{"name": 7, "id": "x"}`: an entry under a key the model does not have,
then an entry under `"id"`. -/
def mixedMessage : List Byte :=
  [0x82, 0xa4, 0x6e, 0x61, 0x6d, 0x65, 0x07, 0xa2, 0x69, 0x64, 0xa1, 0x78]

/-- The prefix `AppendString` and `WriteString` write before the bytes of a string,
for the length `sz` they work with. -/
def stringPrefix (sz : Nat) : List Byte :=
  if sz ≤ 31 then [wfixstr sz]
  else if sz ≤ 255 then prefixu8 0xd9 sz
  else if sz ≤ 65535 then prefixu16 0xda sz
  else prefixu32 0xdb sz

/-- A model whose `Id` has `2 ^ 32` bytes. -/
def hugeModel : DefaultModel := ⟨NilObjectID, hugeId, 0, 0⟩

/-! ## Hexadecimal digits -/

set_option maxRecDepth 100000 in
/-- A hexadecimal digit has a value below 16, and the table gives back its lower-case
form. -/
theorem hexDigit_value : ∀ c : Byte, isHexDigit c = true →
    ∃ v : Fin 16, fromHexChar c = some v.val ∧ hextable.getD v.val 0 = toLowerByte c := by
  decide

set_option maxRecDepth 100000 in
/-- Splitting the byte built from two digit values gives the two values back. -/
theorem nibbles_of_pair : ∀ a b : Fin 16,
    (toByte ((a.val <<< 4) ||| b.val)).val >>> 4 = a.val ∧
    (toByte ((a.val <<< 4) ||| b.val)).val &&& 0x0f = b.val := by
  decide

set_option maxRecDepth 100000 in
/-- A byte that is no hexadecimal digit has no value. -/
theorem fromHexChar_none : ∀ c : Byte, isHexDigit c = false → fromHexChar c = none := by
  decide

set_option maxRecDepth 100000 in
/-- Lower-casing leaves `0`-`9` and `a`-`f` alone. -/
theorem toLowerByte_lower : ∀ c : Byte, isLowerHexDigit c = true → toLowerByte c = c := by
  decide

set_option maxRecDepth 100000 in
/-- The digits `0`-`9`, `a`-`f` are hexadecimal digits. -/
theorem isHexDigit_of_lower : ∀ c : Byte, isLowerHexDigit c = true → isHexDigit c = true := by
  decide

/-- Decoding `2 * n` hexadecimal digits succeeds with `n` bytes, and encoding these
bytes gives the digits back in lower case. -/
theorem hexDecode_ok_of_hex (n : Nat) : ∀ s : List Byte, s.length = 2 * n →
    (∀ c ∈ s, isHexDigit c = true) →
    ∃ b, hexDecode s = .ok b ∧ b.length = n ∧ hexEncode b = s.map toLowerByte := by
  induction n with
  | zero =>
    intro s hl _
    have hs : s = [] := List.length_eq_zero.mp (by omega)
    subst hs
    exact ⟨[], rfl, rfl, rfl⟩
  | succ n ih =>
    intro s hl hs
    match s, hl, hs with
    | [], hl, _ => simp at hl
    | [_], hl, _ => simp at hl; omega
    | p :: q :: rest, hl, hs =>
      obtain ⟨a, ha, hpa⟩ := hexDigit_value p (hs p (by simp))
      obtain ⟨b, hb, hqb⟩ := hexDigit_value q (hs q (by simp))
      obtain ⟨d, hd, hlen, henc⟩ :=
        ih rest (by simp at hl; omega) (fun c hc => hs c (by simp [hc]))
      refine ⟨toByte ((a.val <<< 4) ||| b.val) :: d, ?_, ?_, ?_⟩
      · simp [hexDecode, ha, hb, hd]
      · simp [hlen]
      · have hn := nibbles_of_pair a b
        simp only [hexEncode, hn.1, hn.2, hpa, hqb, henc, List.map_cons]

/-- Decoding a string that holds a byte which is no hexadecimal digit fails. -/
theorem hexDecode_error_of_nonhex : ∀ s : List Byte,
    (∃ c ∈ s, isHexDigit c = false) → ∃ e, hexDecode s = .error e
  | [], h => by simp at h
  | [p], h => by
    have hp : isHexDigit p = false := by simpa using h
    exact ⟨.InvalidByteError p, by simp [hexDecode, fromHexChar_none p hp]⟩
  | p :: q :: rest, h => by
    cases hp : fromHexChar p with
    | none => exact ⟨.InvalidByteError p, by simp [hexDecode, hp]⟩
    | some a =>
      cases hq : fromHexChar q with
      | none => exact ⟨.InvalidByteError q, by simp [hexDecode, hp, hq]⟩
      | some b =>
        have hp1 : isHexDigit p ≠ false := fun hh => by
          rw [fromHexChar_none p hh] at hp; cases hp
        have hq1 : isHexDigit q ≠ false := fun hh => by
          rw [fromHexChar_none q hh] at hq; cases hq
        have hrest : ∃ c ∈ rest, isHexDigit c = false := by
          obtain ⟨c, hc, hcf⟩ := h
          simp only [List.mem_cons] at hc
          rcases hc with rfl | rfl | hc
          · exact absurd hcf hp1
          · exact absurd hcf hq1
          · exact ⟨c, hc, hcf⟩
        obtain ⟨e, he⟩ := hexDecode_error_of_nonhex rest hrest
        exact ⟨e, by simp [hexDecode, hp, hq, he]⟩

/-- Twelve bytes fill the array exactly. -/
theorem copyOID_bytes (b : List Byte) (h : b.length = 12) : (copyOID b).bytes = b := by
  unfold copyOID
  simp only
  rw [← h, List.take_left]

/-- A string of 24 hexadecimal digits converts without error, and the identifier's
`Hex` is the string in lower case. -/
theorem ObjectIDFromHex_hex (s : GoString) (hl : s.length = 24)
    (hs : ∀ c ∈ s, isHexDigit c = true) :
    (ObjectIDFromHex s).2 = none ∧ (ObjectIDFromHex s).1.Hex = s.map toLowerByte := by
  obtain ⟨b, hb, hlen, henc⟩ := hexDecode_ok_of_hex 12 s (by omega) hs
  simp [ObjectIDFromHex, hl, hb, ObjectID.Hex, copyOID_bytes b hlen, henc]

/-! ## Identifier conversion -/

set_option maxRecDepth 1000000 in
/-- C1, as stated, fails: the 24 upper-case digits `AAAAAAAAAAAAAAAAAAAAAAAA` are a
valid hex encoding, `PrepareID` accepts them without error, and after `SetID` with the
result `GetIdStr` is not that string (it is `aaaaaaaaaaaaaaaaaaaaaaaa`). -/
theorem PrepareID_roundtrip_upper_fails :
    upperHexId.length = 24 ∧ (∀ c ∈ upperHexId, isHexDigit c = true) ∧
    (DefaultModel.zero.PrepareID (.string upperHexId)).2.2 = none ∧
    ((DefaultModel.zero.PrepareID (.string upperHexId)).1.SetID
        (DefaultModel.zero.PrepareID (.string upperHexId)).2.1).1.GetIdStr ≠ upperHexId := by
  decide

/-- C1, amended: for every string `s` of 24 hexadecimal digits, `PrepareID` returns an
ObjectID with no error, `SetID` with it does not panic, and afterwards `GetIdStr` is `s`
with its letters in lower case; it is exactly `s` when `s` has no upper-case letter. -/
theorem PrepareID_SetID_GetIdStr (m : DefaultModel) (s : GoString) (hl : s.length = 24)
    (hs : ∀ c ∈ s, isHexDigit c = true) :
    (m.PrepareID (.string s)).2.2 = none ∧
    (m.PrepareID (.string s)).2.1.isObjectID = true ∧
    ((m.PrepareID (.string s)).1.SetID (m.PrepareID (.string s)).2.1).2 = .returned ∧
    ((m.PrepareID (.string s)).1.SetID (m.PrepareID (.string s)).2.1).1.GetIdStr
      = s.map toLowerByte ∧
    ((∀ c ∈ s, isLowerHexDigit c = true) →
      ((m.PrepareID (.string s)).1.SetID (m.PrepareID (.string s)).2.1).1.GetIdStr = s) := by
  obtain ⟨herr, hhex⟩ := ObjectIDFromHex_hex s hl hs
  have hget : ((m.PrepareID (.string s)).1.SetID (m.PrepareID (.string s)).2.1).1.GetIdStr
      = s.map toLowerByte := by
    simp [DefaultModel.PrepareID, GoAny.asString, DefaultModel.SetID, GoAny.assertObjectID,
      DefaultModel.GetIdStr, hhex]
  refine ⟨?_, ?_, ?_, hget, ?_⟩
  · simp [DefaultModel.PrepareID, GoAny.asString, herr]
  · simp [DefaultModel.PrepareID, GoAny.asString, GoAny.isObjectID]
  · simp [DefaultModel.PrepareID, GoAny.asString, DefaultModel.SetID, GoAny.assertObjectID]
  · intro hlow
    rw [hget]
    calc s.map toLowerByte = s.map id :=
          List.map_congr_left (fun c hc => toLowerByte_lower c (hlow c hc))
      _ = s := List.map_id s

set_option maxRecDepth 1000000 in
/-- The amended C1 at `"0123456789abcdef01234567"`. -/
theorem PrepareID_SetID_GetIdStr_witness :
    lowerHexId.length = 24 ∧ (∀ c ∈ lowerHexId, isHexDigit c = true) ∧
    (∀ c ∈ lowerHexId, isLowerHexDigit c = true) ∧
    ((sampleModel.PrepareID (.string lowerHexId)).1.SetID
        (sampleModel.PrepareID (.string lowerHexId)).2.1).1.GetIdStr = lowerHexId :=
  ⟨by decide, by decide, by decide,
    (PrepareID_SetID_GetIdStr sampleModel lowerHexId (by decide) (by decide)).2.2.2.2
      (by decide)⟩

/-- C2: for every string that is not 24 bytes long or holds a byte that is no
hexadecimal digit, `PrepareID` returns an error and the model is the same after the call
as before it. A string whose count of characters is not 24, or one with a character
that is no hexadecimal digit, is such a string. -/
theorem PrepareID_malformed (m : DefaultModel) (s : GoString)
    (h : s.length ≠ 24 ∨ ∃ c ∈ s, isHexDigit c = false) :
    (∃ e, (m.PrepareID (.string s)).2.2 = some e) ∧ (m.PrepareID (.string s)).1 = m := by
  refine ⟨?_, rfl⟩
  by_cases hl : s.length = 24
  · obtain ⟨e, he⟩ := hexDecode_error_of_nonhex s (h.resolve_left (fun hne => hne hl))
    exact ⟨e, by simp [DefaultModel.PrepareID, GoAny.asString, ObjectIDFromHex, hl, he]⟩
  · exact ⟨.ErrInvalidHex, by simp [DefaultModel.PrepareID, GoAny.asString, ObjectIDFromHex, hl]⟩

set_option maxRecDepth 1000000 in
/-- C2 at `"0123456789abcdefg1234567"`, which has the right length and the letter `g`. -/
theorem PrepareID_malformed_witness :
    (badCharId.length ≠ 24 ∨ ∃ c ∈ badCharId, isHexDigit c = false) ∧
    (∃ e, (sampleModel.PrepareID (.string badCharId)).2.2 = some e) ∧
    (sampleModel.PrepareID (.string badCharId)).1 = sampleModel :=
  ⟨Or.inr (by decide), PrepareID_malformed sampleModel badCharId (Or.inr (by decide))⟩

/-- C3, as stated, fails: the integer 5 is neither a string nor an ObjectID, and
`PrepareID` returns it as a successful result, with a nil error. -/
theorem PrepareID_int_succeeds :
    (GoAny.int 5).isString = false ∧ (GoAny.int 5).isObjectID = false ∧
    (DefaultModel.zero.PrepareID (.int 5)).2.2 = none ∧
    (DefaultModel.zero.PrepareID (.int 5)).2.1 = .int 5 := by
  decide

/-- C3, amended: for every input value that is neither a string nor an ObjectID,
`PrepareID` returns that value itself with no error and leaves the model as it was. -/
theorem PrepareID_other (m : DefaultModel) (id : GoAny) (hs : id.isString = false)
    (_ho : id.isObjectID = false) : m.PrepareID id = (m, id, none) := by
  cases id <;> first | rfl | simp [GoAny.isString] at hs

/-- The amended C3 at the nil interface value. -/
theorem PrepareID_other_witness :
    GoAny.nil.isString = false ∧ GoAny.nil.isObjectID = false ∧
    sampleModel.PrepareID .nil = (sampleModel, .nil, none) :=
  ⟨rfl, rfl, PrepareID_other sampleModel .nil rfl rfl⟩

/-- C4: for every ObjectID `oid`, `PrepareID` returns `oid` itself with no error. -/
theorem PrepareID_objectID (m : DefaultModel) (oid : ObjectID) :
    (m.PrepareID (.objectID oid)).2.1 = .objectID oid ∧
    (m.PrepareID (.objectID oid)).2.2 = none :=
  ⟨rfl, rfl⟩

/-- C5: for every model and every ObjectID `oid`, `SetID(oid)` returns, and afterwards
`GetID` is `oid` and `GetIdStr` is the hex encoding of `oid`, that is of `GetID`. -/
theorem SetID_GetID_GetIdStr (m : DefaultModel) (oid : ObjectID) :
    (m.SetID (.objectID oid)).2 = .returned ∧
    (m.SetID (.objectID oid)).1.GetID = oid ∧
    (m.SetID (.objectID oid)).1.GetIdStr = oid.Hex ∧
    (m.SetID (.objectID oid)).1.GetIdStr = (m.SetID (.objectID oid)).1.GetID.Hex :=
  ⟨rfl, rfl, rfl, rfl⟩

/-- C6: `SetID(v)` panics if and only if `v` is not an ObjectID, and when it panics the
model's `ObjectId` and `Id` are the same as before the call. -/
theorem SetID_panics_iff (m : DefaultModel) (v : GoAny) :
    ((m.SetID v).2 = .panicked ↔ v.isObjectID = false) ∧
    ((m.SetID v).2 = .panicked →
      (m.SetID v).1.ObjectId = m.ObjectId ∧ (m.SetID v).1.Id = m.Id) := by
  cases v <;>
    simp [DefaultModel.SetID, GoAny.assertObjectID, GoAny.isObjectID]

/-- C6 at a string argument: the call panics and the model is as before. -/
theorem SetID_panics_iff_witness :
    (sampleModel.SetID (.string lowerHexId)).2 = .panicked ∧
    (sampleModel.SetID (.string lowerHexId)).1.ObjectId = sampleModel.ObjectId ∧
    (sampleModel.SetID (.string lowerHexId)).1.Id = sampleModel.Id :=
  ⟨rfl, (SetID_panics_iff sampleModel (.string lowerHexId)).2 rfl⟩

/-! ## Lifecycle hooks -/

/-- A run of saves writes no field but `UpdatedAt`. -/
theorem savesFrom_frame (ts : List Int) : ∀ m : DefaultModel,
    (savesFrom m ts).CreatedAt = m.CreatedAt ∧ (savesFrom m ts).ObjectId = m.ObjectId ∧
    (savesFrom m ts).Id = m.Id := by
  induction ts with
  | nil => intro m; exact ⟨rfl, rfl, rfl⟩
  | cons t ts ih => intro m; exact ih (m.Saving t).1

/-- After a run of saves `UpdatedAt` is the last clock reading, or the old value when
there was no save. -/
theorem savesFrom_UpdatedAt (ts : List Int) : ∀ m : DefaultModel,
    (savesFrom m ts).UpdatedAt = ts.getLast?.getD m.UpdatedAt := by
  induction ts with
  | nil => intro m; rfl
  | cons t ts ih =>
    intro m
    rw [savesFrom, ih]
    cases ts with
    | nil => rfl
    | cons u us => simp [List.getLast?_cons_cons, List.getLast?_eq_getLast]

/-- C7: for every model and every clock reading `t`, `Creating` returns no error and
leaves `CreatedAt` equal to `t`, and `Saving` returns no error and leaves `UpdatedAt`
equal to `t`; the hooks of `DateFields` do the same. -/
theorem Creating_Saving_set_clock (m : DefaultModel) (f : DateFields) (t : Int) :
    (m.Creating t).2 = none ∧ (m.Creating t).1.CreatedAt = t ∧
    (m.Saving t).2 = none ∧ (m.Saving t).1.UpdatedAt = t ∧
    (f.Creating t).2 = none ∧ (f.Creating t).1.CreatedAt = t ∧
    (f.Saving t).2 = none ∧ (f.Saving t).1.UpdatedAt = t :=
  ⟨rfl, rfl, rfl, rfl, rfl, rfl, rfl, rfl⟩

/-- C8, as stated, fails: on the zero-valued model, `Creating` at the clock reading
1000 followed by `Saving` at the reading 1001 leaves `CreatedAt` and `UpdatedAt`
different; and with the clock at 0 both stay zero. -/
theorem create_timestamps_differ :
    ((DefaultModel.zero.Creating 1000).1.Saving 1001).1.CreatedAt ≠
      ((DefaultModel.zero.Creating 1000).1.Saving 1001).1.UpdatedAt ∧
    ((DefaultModel.zero.Creating 0).1.Saving 0).1.CreatedAt = 0 := by
  decide

/-- C8, amended: for a zero-valued model, after `Creating` at the clock reading `t1`
followed by `Saving` at the reading `t2`, `CreatedAt` is `t1` and `UpdatedAt` is `t2`;
when the two hooks read the same non-zero value, `CreatedAt` equals `UpdatedAt` and
both are non-zero. -/
theorem create_timestamps (t1 t2 : Int) :
    ((DefaultModel.zero.Creating t1).1.Saving t2).1.CreatedAt = t1 ∧
    ((DefaultModel.zero.Creating t1).1.Saving t2).1.UpdatedAt = t2 ∧
    (t1 = t2 → t1 ≠ 0 →
      ((DefaultModel.zero.Creating t1).1.Saving t2).1.CreatedAt =
        ((DefaultModel.zero.Creating t1).1.Saving t2).1.UpdatedAt ∧
      ((DefaultModel.zero.Creating t1).1.Saving t2).1.CreatedAt ≠ 0 ∧
      ((DefaultModel.zero.Creating t1).1.Saving t2).1.UpdatedAt ≠ 0) := by
  refine ⟨rfl, rfl, ?_⟩
  intro h h0
  subst h
  exact ⟨rfl, h0, h0⟩

/-- The amended C8 with both hooks reading 1700000000000. -/
theorem create_timestamps_witness :
    ((DefaultModel.zero.Creating 1700000000000).1.Saving 1700000000000).1.CreatedAt =
      ((DefaultModel.zero.Creating 1700000000000).1.Saving 1700000000000).1.UpdatedAt ∧
    ((DefaultModel.zero.Creating 1700000000000).1.Saving 1700000000000).1.CreatedAt ≠ 0 ∧
    ((DefaultModel.zero.Creating 1700000000000).1.Saving 1700000000000).1.UpdatedAt ≠ 0 :=
  (create_timestamps 1700000000000 1700000000000).2.2 rfl (by decide)

/-- C9, as stated, fails: with `Creating` at the clock reading 100 and the first
`Saving` at the reading 50 (the wall clock was set back), `UpdatedAt` is below
`CreatedAt`; and on a model whose `UpdatedAt` is 1700000000500, `Creating` at 100 and
`Saving` at 200 leaves `UpdatedAt` below the value it had before that call. -/
theorem Saving_not_monotone :
    ((createThenSaves DefaultModel.zero 100 []).Saving 50).1.UpdatedAt <
      ((createThenSaves DefaultModel.zero 100 []).Saving 50).1.CreatedAt ∧
    ((createThenSaves sampleModel 100 []).Saving 200).1.UpdatedAt <
      (createThenSaves sampleModel 100 []).UpdatedAt := by
  decide

/-- C9, amended: when the clock readings of the hook calls never decrease, then after
`Creating` at `t0`, the saves at `ts` and one more `Saving` at `t`, `UpdatedAt` is at
least `CreatedAt`; and it is at least the value it had before that call when the call
is not the first save, or when the model's initial `UpdatedAt` is at most `t`. -/
theorem Saving_monotone (m : DefaultModel) (t0 : Int) (ts : List Int) (t : Int)
    (hclock : List.Pairwise (fun a b => a ≤ b) (t0 :: (ts ++ [t]))) :
    ((createThenSaves m t0 ts).Saving t).1.CreatedAt ≤
      ((createThenSaves m t0 ts).Saving t).1.UpdatedAt ∧
    (ts ≠ [] ∨ m.UpdatedAt ≤ t →
      (createThenSaves m t0 ts).UpdatedAt ≤
        ((createThenSaves m t0 ts).Saving t).1.UpdatedAt) := by
  rw [List.pairwise_cons, List.pairwise_append] at hclock
  obtain ⟨h0, _, _, hts⟩ := hclock
  have hc : (createThenSaves m t0 ts).CreatedAt = t0 :=
    (savesFrom_frame ts (m.Creating t0).1).1
  have hu : (createThenSaves m t0 ts).UpdatedAt = ts.getLast?.getD m.UpdatedAt :=
    savesFrom_UpdatedAt ts (m.Creating t0).1
  refine ⟨?_, ?_⟩
  · show (createThenSaves m t0 ts).CreatedAt ≤ t
    rw [hc]
    exact h0 t (by simp)
  · intro h
    show (createThenSaves m t0 ts).UpdatedAt ≤ t
    rw [hu]
    cases hl : ts.getLast? with
    | none =>
      have hnil : ts = [] := List.getLast?_eq_none_iff.mp hl
      rcases h with h | h
      · exact absurd hnil h
      · simpa using h
    | some u =>
      have hmem : u ∈ ts := List.mem_of_getLast?_eq_some hl
      simpa using hts u hmem t (by simp)

/-- The amended C9 on a create at 100 and saves at 100, 250 and 900. -/
theorem Saving_monotone_witness :
    List.Pairwise (fun a b => a ≤ b) ((100 : Int) :: ([100, 250] ++ [900])) ∧
    ((createThenSaves sampleModel 100 [100, 250]).Saving 900).1.CreatedAt ≤
      ((createThenSaves sampleModel 100 [100, 250]).Saving 900).1.UpdatedAt ∧
    (createThenSaves sampleModel 100 [100, 250]).UpdatedAt ≤
      ((createThenSaves sampleModel 100 [100, 250]).Saving 900).1.UpdatedAt :=
  ⟨by decide,
    (Saving_monotone sampleModel 100 [100, 250] 900 (by decide)).1,
    (Saving_monotone sampleModel 100 [100, 250] 900 (by decide)).2 (Or.inl (by decide))⟩

/-- C10: for every model and clock reading, `Saving` changes no field other than
`UpdatedAt`, and `Creating` changes no field other than `CreatedAt`. -/
theorem Saving_Creating_frame (m : DefaultModel) (t : Int) :
    (m.Saving t).1.CreatedAt = m.CreatedAt ∧ (m.Saving t).1.ObjectId = m.ObjectId ∧
    (m.Saving t).1.Id = m.Id ∧
    (m.Creating t).1.UpdatedAt = m.UpdatedAt ∧ (m.Creating t).1.ObjectId = m.ObjectId ∧
    (m.Creating t).1.Id = m.Id :=
  ⟨rfl, rfl, rfl, rfl, rfl, rfl⟩

/-! ## Identifier and creation time over a model's lifetime -/

/-- The loop of `UnmarshalMsg` never writes `ObjectId`. -/
theorem unmarshalFields_ObjectId (n : Nat) : ∀ (z : DefaultModel) (bts : List Byte),
    (unmarshalFields n z bts).1.ObjectId = z.ObjectId := by
  induction n with
  | zero => intro z bts; rfl
  | succ n ih =>
    intro z bts
    unfold unmarshalFields
    split
    · rfl
    · split
      · split
        · rfl
        · rw [ih]
      · split
        · split
          · rfl
          · rw [ih]
        · split
          · split
            · rfl
            · rw [ih]
          · split
            · rfl
            · rw [ih]

/-- Method `UnmarshalMsg` never writes `ObjectId`, whether it succeeds or fails. -/
theorem UnmarshalMsg_ObjectId (z : DefaultModel) (bts : List Byte) :
    (z.UnmarshalMsg bts).1.ObjectId = z.ObjectId := by
  unfold DefaultModel.UnmarshalMsg
  split
  · rfl
  · exact unmarshalFields_ObjectId _ _ _

/-- A call that is no `SetID` with an ObjectID leaves `ObjectId` as it was. -/
theorem ModelOp_apply_ObjectId (m : DefaultModel) (op : ModelOp) (h : op.storesID = false) :
    (op.apply m).ObjectId = m.ObjectId := by
  cases op with
  | SetID id =>
    cases id <;> first | rfl | simp [ModelOp.storesID, GoAny.isObjectID] at h
  | PrepareID id =>
    show (m.PrepareID id).1.ObjectId = m.ObjectId
    unfold DefaultModel.PrepareID
    split <;> rfl
  | Creating now => rfl
  | Saving now => rfl
  | UnmarshalMsg bts => exact UnmarshalMsg_ObjectId m bts

/-- C11, as stated, fails: on a model whose `CreatedAt` was set to 100 by a first
`Creating`, a later `Creating` at the clock reading 200 leaves `CreatedAt` at 200. -/
theorem Creating_twice_overwrites :
    (DefaultModel.zero.Creating 100).1.CreatedAt = 100 ∧
    ((DefaultModel.zero.Creating 100).1.Creating 200).1.CreatedAt ≠
      (DefaultModel.zero.Creating 100).1.CreatedAt := by
  decide

/-- C11, amended: `Creating` has no guard: on a model whose `CreatedAt` was set by an
earlier `Creating` at the reading `t1`, a later `Creating` at the reading `t2` leaves
`CreatedAt` equal to `t2`, so the first value stays exactly when `t2 = t1`; the
`Saving` calls in between and after leave `CreatedAt` alone. -/
theorem Creating_twice (m : DefaultModel) (t1 t2 : Int) (ts us : List Int) :
    (savesFrom (m.Creating t1).1 ts).CreatedAt = t1 ∧
    (savesFrom ((savesFrom (m.Creating t1).1 ts).Creating t2).1 us).CreatedAt = t2 ∧
    ((savesFrom ((savesFrom (m.Creating t1).1 ts).Creating t2).1 us).CreatedAt = t1 ↔
      t2 = t1) := by
  have h1 : (savesFrom (m.Creating t1).1 ts).CreatedAt = t1 :=
    (savesFrom_frame ts (m.Creating t1).1).1
  have h2 : (savesFrom ((savesFrom (m.Creating t1).1 ts).Creating t2).1 us).CreatedAt = t2 :=
    (savesFrom_frame us ((savesFrom (m.Creating t1).1 ts).Creating t2).1).1
  exact ⟨h1, h2, by rw [h2]⟩

/-- C12, as stated, fails: after `SetID` stored one identifier, a later `SetID` with
another ObjectID makes `GetID` return the other one. -/
theorem SetID_twice_replaces :
    (DefaultModel.zero.SetID (.objectID (copyOID [1, 2, 3]))).1.GetID = copyOID [1, 2, 3] ∧
    (runOps (DefaultModel.zero.SetID (.objectID (copyOID [1, 2, 3]))).1
        [.SetID (.objectID otherOID)]).GetID ≠ copyOID [1, 2, 3] := by
  decide

/-- C12, amended: once `SetID` has stored an identifier, `GetID` still returns it after
every later sequence of `PrepareID`, `Creating`, `Saving`, `UnmarshalMsg` calls and of
`SetID` calls that panic; only a later `SetID` with an ObjectID replaces it. -/
theorem GetID_stable (m : DefaultModel) (oid : ObjectID) (ops : List ModelOp)
    (h : ∀ op ∈ ops, op.storesID = false) :
    (runOps (m.SetID (.objectID oid)).1 ops).GetID = oid := by
  have key : ∀ (ops : List ModelOp) (m0 : DefaultModel),
      (∀ op ∈ ops, op.storesID = false) → (runOps m0 ops).ObjectId = m0.ObjectId := by
    intro ops
    induction ops with
    | nil => intro m0 _; rfl
    | cons op ops ih =>
      intro m0 hops
      have hop := ModelOp_apply_ObjectId m0 op (hops op (by simp))
      have hrest := ih (op.apply m0) (fun o ho => hops o (by simp [ho]))
      simp only [runOps, List.foldl_cons] at hrest ⊢
      rw [hrest, hop]
  show (runOps (m.SetID (.objectID oid)).1 ops).ObjectId = oid
  rw [key ops _ h]
  rfl

/-- The amended C12 on a run of all five calls, the `SetID` with a string. -/
theorem GetID_stable_witness :
    (runOps (sampleModel.SetID (.objectID otherOID)).1
      [.PrepareID (.string lowerHexId), .Creating 5, .SetID (.string lowerHexId),
        .Saving 9, .UnmarshalMsg foreignMessage]).GetID = otherOID :=
  GetID_stable sampleModel otherOID _ (by decide)

/-! ## Transactions -/

/-- C13: for every document created with `CreateWithCtx` inside the function passed
to `Transaction` or to `TransactionWithCtx`, if the function ends with
`AbortTransaction`, the runner returns no error and a count of the previously empty
collection returns 0. -/
theorem Transaction_abort (env : Collaborator) (ctx : ExecCtx) (d : Doc)
    (hacquire : env.acquire = none) (hstart : env.start = none)
    (hinsert : env.insert = none) :
    (Transaction env [] (createThenAbort env d)).2 = none ∧
    CountDocuments (Transaction env [] (createThenAbort env d)).1 = 0 ∧
    (TransactionWithCtx env ctx [] (createThenAbort env d)).2 = none ∧
    CountDocuments (TransactionWithCtx env ctx [] (createThenAbort env d)).1 = 0 := by
  simp [Transaction, TransactionWithCtx, createThenAbort, CreateWithCtx, AbortTransaction,
    releaseSession, CountDocuments, DefaultModel.Creating, DefaultModel.Saving,
    hacquire, hstart, hinsert]

/-- C13 on the document `{Name: "check", Age: 10}` and a supplied context. -/
theorem Transaction_abort_witness :
    (Transaction workingStore [] (createThenAbort workingStore checkDoc)).2 = none ∧
    CountDocuments (Transaction workingStore [] (createThenAbort workingStore checkDoc)).1
      = 0 ∧
    (TransactionWithCtx workingStore (.supplied (some 30)) []
      (createThenAbort workingStore checkDoc)).2 = none ∧
    CountDocuments (TransactionWithCtx workingStore (.supplied (some 30)) []
      (createThenAbort workingStore checkDoc)).1 = 0 :=
  Transaction_abort workingStore (.supplied (some 30)) checkDoc rfl rfl rfl

/-- C14: for every document created with `CreateWithCtx` inside the function passed
to `Transaction`, if the function ends with `CommitTransaction` and it succeeds,
`Transaction` returns no error and a count of the previously empty collection
returns 1. -/
theorem Transaction_commit (env : Collaborator) (d : Doc)
    (hacquire : env.acquire = none) (hstart : env.start = none)
    (hinsert : env.insert = none) (hcommit : env.commit = none) :
    (Transaction env [] (createThenCommit env d)).2 = none ∧
    CountDocuments (Transaction env [] (createThenCommit env d)).1 = 1 := by
  simp [Transaction, TransactionWithCtx, createThenCommit, CreateWithCtx,
    CommitTransaction, releaseSession, CountDocuments, DefaultModel.Creating,
    DefaultModel.Saving, hacquire, hstart, hinsert, hcommit]

/-- C14 on the document `{Name: "check", Age: 10}`. -/
theorem Transaction_commit_witness :
    (Transaction workingStore [] (createThenCommit workingStore checkDoc)).2 = none ∧
    CountDocuments (Transaction workingStore [] (createThenCommit workingStore checkDoc)).1
      = 1 :=
  Transaction_commit workingStore checkDoc rfl rfl rfl rfl

/-! ## Size of the serialized message -/

/-- Function `AppendString` adds the string and a prefix of at most 5 bytes. -/
theorem AppendString_length (b : List Byte) (s : GoString) :
    (AppendString b s).length ≤ b.length + 5 + s.length := by
  unfold AppendString
  simp only
  split_ifs <;> simp [prefixu8, prefixu16, prefixu32] <;> omega

/-- Function `AppendInt64` adds at most 9 bytes. -/
theorem AppendInt64_length (b : List Byte) (i : Int) :
    (AppendInt64 b i).length ≤ b.length + 9 := by
  unfold AppendInt64
  split_ifs <;> simp [putMint8, putMint16, putMint32, putMint64]

/-- C15: `Msgsize` is an upper bound on the serialized size: the length of
`MarshalMsg(nil, z)` is at most `z.Msgsize() = 1 + 3 + 5 + len(Id) + 12 + 9 + 17 + 9`,
for every model, those of the claim (`Id` shorter than `2 ^ 32` bytes, `int64` times)
among them. -/
theorem MarshalMsg_length_le_Msgsize (z : DefaultModel) :
    (z.MarshalMsg []).1.length ≤ z.Msgsize ∧
    z.Msgsize = 1 + 3 + 5 + z.Id.length + 12 + 9 + 17 + 9 := by
  refine ⟨?_, rfl⟩
  unfold DefaultModel.MarshalMsg DefaultModel.Msgsize Require
  simp only
  have h1 := AppendString_length ([] ++ [0x83, 0xa2, 0x69, 0x64]) z.Id
  have h2 := AppendInt64_length
    (AppendString ([] ++ [0x83, 0xa2, 0x69, 0x64]) z.Id ++
      [0xab, 0x63, 0x72, 0x65, 0x61, 0x74, 0x65, 0x5f, 0x74, 0x69, 0x6d, 0x65]) z.CreatedAt
  have h3 := AppendInt64_length
    (AppendInt64 (AppendString ([] ++ [0x83, 0xa2, 0x69, 0x64]) z.Id ++
      [0xab, 0x63, 0x72, 0x65, 0x61, 0x74, 0x65, 0x5f, 0x74, 0x69, 0x6d, 0x65]) z.CreatedAt ++
      [0xb0, 0x6c, 0x61, 0x73, 0x74, 0x5f, 0x6d, 0x6f, 0x64, 0x69, 0x66, 0x79,
        0x5f, 0x74, 0x69, 0x6d, 0x65]) z.UpdatedAt
  simp only [List.length_append, List.length_cons, List.length_nil] at h1 h2 h3
  omega

/-! ## Round trip of the MessagePack primitives -/

/-- A shifted value and a smaller one have no bit in common: `|` adds them. -/
theorem or_shift (x y k : Nat) (h : y < 2 ^ k) : (x <<< k) ||| y = x * 2 ^ k + y := by
  rw [Nat.shiftLeft_eq, Nat.mul_comm, ← Nat.mul_add_lt_is_or h]

/-- Two bytes, big endian. -/
theorem be2 (b1 b2 : Nat) (h2 : b2 < 256) : (b1 <<< 8) ||| b2 = b1 * 256 + b2 := by
  have := or_shift b1 b2 8 (by norm_num; exact h2)
  simpa using this

/-- Four bytes, big endian. -/
theorem be4 (b1 b2 b3 b4 : Nat) (h2 : b2 < 256) (h3 : b3 < 256) (h4 : b4 < 256) :
    (b1 <<< 24) ||| (b2 <<< 16) ||| (b3 <<< 8) ||| b4
      = b1 * 16777216 + b2 * 65536 + b3 * 256 + b4 := by
  rw [Nat.or_assoc, Nat.or_assoc]
  have e1 := or_shift b3 b4 8 (by norm_num; exact h4)
  rw [e1]
  have e2 := or_shift b2 (b3 * 2 ^ 8 + b4) 16 (by norm_num; omega)
  rw [e2]
  have e3 := or_shift b1 (b2 * 2 ^ 16 + (b3 * 2 ^ 8 + b4)) 24 (by norm_num; omega)
  rw [e3]
  norm_num
  omega

/-- Eight bytes, big endian. -/
theorem be8 (b1 b2 b3 b4 b5 b6 b7 b8 : Nat) (h2 : b2 < 256) (h3 : b3 < 256)
    (h4 : b4 < 256) (h5 : b5 < 256) (h6 : b6 < 256) (h7 : b7 < 256) (h8 : b8 < 256) :
    (b1 <<< 56) ||| (b2 <<< 48) ||| (b3 <<< 40) ||| (b4 <<< 32) ||| (b5 <<< 24) |||
      (b6 <<< 16) ||| (b7 <<< 8) ||| b8
      = b1 * 72057594037927936 + b2 * 281474976710656 + b3 * 1099511627776 +
        b4 * 4294967296 + b5 * 16777216 + b6 * 65536 + b7 * 256 + b8 := by
  simp only [Nat.or_assoc]
  have e1 := or_shift b7 b8 8 (by norm_num; exact h8)
  rw [e1]
  have e2 := or_shift b6 (b7 * 2 ^ 8 + b8) 16 (by norm_num; omega)
  rw [e2]
  have e3 := or_shift b5 (b6 * 2 ^ 16 + (b7 * 2 ^ 8 + b8)) 24 (by norm_num; omega)
  rw [e3]
  have e4 := or_shift b4 (b5 * 2 ^ 24 + (b6 * 2 ^ 16 + (b7 * 2 ^ 8 + b8))) 32
    (by norm_num; omega)
  rw [e4]
  have e5 := or_shift b3 (b4 * 2 ^ 32 + (b5 * 2 ^ 24 + (b6 * 2 ^ 16 + (b7 * 2 ^ 8 + b8)))) 40
    (by norm_num; omega)
  rw [e5]
  have e6 := or_shift b2
    (b3 * 2 ^ 40 + (b4 * 2 ^ 32 + (b5 * 2 ^ 24 + (b6 * 2 ^ 16 + (b7 * 2 ^ 8 + b8))))) 48
    (by norm_num; omega)
  rw [e6]
  have e7 := or_shift b1
    (b2 * 2 ^ 48 +
      (b3 * 2 ^ 40 + (b4 * 2 ^ 32 + (b5 * 2 ^ 24 + (b6 * 2 ^ 16 + (b7 * 2 ^ 8 + b8)))))) 56
    (by norm_num; omega)
  rw [e7]
  norm_num
  omega

/-- Bytes 1 and 2 of a slice given by its elements. -/
theorem getMuint16_cons (p x y : Byte) (t : List Byte) :
    getMuint16 (p :: x :: y :: t) = x.val * 256 + y.val := by
  show (x.val <<< 8) ||| y.val = _
  exact be2 _ _ y.isLt

/-- Bytes 1 to 4 of a slice given by its elements. -/
theorem getMuint32_cons (p a b c d : Byte) (t : List Byte) :
    getMuint32 (p :: a :: b :: c :: d :: t)
      = a.val * 16777216 + b.val * 65536 + c.val * 256 + d.val := by
  show (a.val <<< 24) ||| (b.val <<< 16) ||| (c.val <<< 8) ||| d.val = _
  exact be4 _ _ _ _ b.isLt c.isLt d.isLt

/-- Bytes 1 to 8 of a slice given by its elements. -/
theorem getMuint64_cons (p b1 b2 b3 b4 b5 b6 b7 b8 : Byte) (t : List Byte) :
    getMuint64 (p :: b1 :: b2 :: b3 :: b4 :: b5 :: b6 :: b7 :: b8 :: t)
      = b1.val * 72057594037927936 + b2.val * 281474976710656 + b3.val * 1099511627776 +
        b4.val * 4294967296 + b5.val * 16777216 + b6.val * 65536 + b7.val * 256 + b8.val := by
  show (b1.val <<< 56) ||| (b2.val <<< 48) ||| (b3.val <<< 40) ||| (b4.val <<< 32) |||
      (b5.val <<< 24) ||| (b6.val <<< 16) ||| (b7.val <<< 8) ||| b8.val = _
  exact be8 _ _ _ _ _ _ _ _ b2.isLt b3.isLt b4.isLt b5.isLt b6.isLt b7.isLt b8.isLt

/-- The value of `byte(i >> k)`. -/
theorem byteOfInt_shift_val (i : Int) (k : Nat) :
    (byteOfInt (i >>> k)).val = ((i / ((2 ^ k : Nat) : Int)) % 256).toNat := by
  rw [Int.shiftRight_eq_div_pow]
  rfl

set_option maxRecDepth 100000 in
/-- The lead byte of a short string carries its length. -/
theorem fixstr_lead : ∀ n : Fin 32,
    isfixstr (wfixstr n.val) = true ∧ rfixstr (wfixstr n.val) = n.val := by
  decide

set_option maxRecDepth 100000 in
/-- A small non-negative integer is its own lead byte. -/
theorem fixint_lead : ∀ n : Fin 128,
    isfixint (wfixint n.val) = true ∧ rfixint (wfixint n.val) = n.val := by
  decide

set_option maxRecDepth 100000 in
/-- A negative integer down to -32 is its own lead byte. -/
theorem nfixint_lead : ∀ n : Fin 32,
    isfixint (wnfixint (-1 - (n.val : Int))) = false ∧
    isnfixint (wnfixint (-1 - (n.val : Int))) = true ∧
    rnfixint (wnfixint (-1 - (n.val : Int))) = -1 - (n.val : Int) := by
  decide

/-- Function `AppendString` appends to `b` what it appends to the empty slice. -/
theorem AppendString_append (b : List Byte) (s : GoString) :
    AppendString b s = b ++ AppendString [] s := by
  unfold AppendString
  simp only
  split_ifs <;> simp

/-- Function `AppendInt64` appends to `b` what it appends to the empty slice. -/
theorem AppendInt64_append (b : List Byte) (i : Int) :
    AppendInt64 b i = b ++ AppendInt64 [] i := by
  unfold AppendInt64
  split_ifs <;> simp

/-- Reading back a string of fewer than `2 ^ 32` bytes gives the string and the bytes
that follow it. -/
theorem ReadStringZC_AppendString (s : GoString) (rest : List Byte)
    (h : s.length < 4294967296) :
    ReadStringZC (AppendString [] s ++ rest) = (s, rest, none) := by
  unfold AppendString
  simp only
  split_ifs with h1 h2 h3
  · obtain ⟨hfix, hr⟩ := fixstr_lead ⟨s.length, by omega⟩
    simp only at hfix hr
    simp [ReadStringZC, hfix, hr]
  · have hlead : isfixstr (0xd9 : Byte) = false := by decide
    have hb : byteAt (0xd9 :: toByte s.length :: (s ++ rest)) 1 = s.length := by
      show s.length % 256 = s.length
      omega
    simp [ReadStringZC, prefixu8, hlead, hb]
  · have hlead : isfixstr (0xda : Byte) = false := by decide
    have hne : ((0xda : Byte) = 0xd9) = False := by simp
    have hb : getMuint16 (0xda :: toByte (s.length >>> 8) :: toByte s.length :: (s ++ rest))
        = s.length := by
      rw [getMuint16_cons]
      show (s.length >>> 8) % 256 * 256 + s.length % 256 = s.length
      rw [Nat.shiftRight_eq_div_pow]
      norm_num
      omega
    simp [ReadStringZC, prefixu16, hlead, hne, hb]
  · have hlead : isfixstr (0xdb : Byte) = false := by decide
    have hne1 : ((0xdb : Byte) = 0xd9) = False := by simp
    have hne2 : ((0xdb : Byte) = 0xda) = False := by simp
    have hb : getMuint32 (0xdb :: toByte (s.length >>> 24) :: toByte (s.length >>> 16) ::
        toByte (s.length >>> 8) :: toByte s.length :: (s ++ rest)) = s.length := by
      rw [getMuint32_cons]
      show (s.length >>> 24) % 256 * 16777216 + (s.length >>> 16) % 256 * 65536 +
        (s.length >>> 8) % 256 * 256 + s.length % 256 = s.length
      simp only [Nat.shiftRight_eq_div_pow]
      norm_num
      omega
    simp [ReadStringZC, prefixu32, hlead, hne1, hne2, hb]

/-- The value of `byte(i)`. -/
theorem byteOfInt_val (i : Int) : (byteOfInt i).val = (i % 256).toNat := rfl

/-- Reading back the two bytes of an `int16`. -/
theorem getMint16_putMint16 (i : Int) (rest : List Byte) (h1 : -32768 ≤ i) (h2 : i ≤ 32767) :
    getMint16 (putMint16 i ++ rest) = i := by
  have e : getMuint16 (putMint16 i ++ rest)
      = ((i / 256) % 256).toNat * 256 + (i % 256).toNat := by
    show getMuint16 (0xd1 :: byteOfInt (i >>> (8 : Nat)) :: byteOfInt i :: rest) = _
    rw [getMuint16_cons, byteOfInt_shift_val, byteOfInt_val]
    norm_num
  unfold getMint16 toSigned
  rw [e]
  norm_num
  split_ifs <;> omega

/-- Reading back the byte of an `int8`. -/
theorem getMint8_putMint8 (i : Int) (rest : List Byte) (h1 : -128 ≤ i) (h2 : i ≤ 127) :
    getMint8 (putMint8 i ++ rest) = i := by
  have e : byteAt (putMint8 i ++ rest) 1 = (i % 256).toNat := rfl
  unfold getMint8 toSigned
  rw [e]
  norm_num
  split_ifs <;> omega

/-- Reading back the four bytes of an `int32`. -/
theorem getMint32_putMint32 (i : Int) (rest : List Byte) (h1 : -2147483648 ≤ i)
    (h2 : i ≤ 2147483647) : getMint32 (putMint32 i ++ rest) = i := by
  have e : getMuint32 (putMint32 i ++ rest)
      = ((i / 16777216) % 256).toNat * 16777216 + ((i / 65536) % 256).toNat * 65536 +
        ((i / 256) % 256).toNat * 256 + (i % 256).toNat := by
    show getMuint32 (0xd2 :: byteOfInt (i >>> (24 : Nat)) :: byteOfInt (i >>> (16 : Nat)) ::
      byteOfInt (i >>> (8 : Nat)) :: byteOfInt i :: rest) = _
    rw [getMuint32_cons, byteOfInt_shift_val, byteOfInt_shift_val, byteOfInt_shift_val,
      byteOfInt_val]
    norm_num
  unfold getMint32 toSigned
  rw [e]
  norm_num
  split_ifs <;> omega
/-- The eight bytes of an `int64`, big endian, are the bytes of its value modulo
`2 ^ 64`. -/
theorem int64_bytes_sum (i : Int) :
    ((i / 72057594037927936) % 256).toNat * 72057594037927936 +
      ((i / 281474976710656) % 256).toNat * 281474976710656 +
      ((i / 1099511627776) % 256).toNat * 1099511627776 +
      ((i / 4294967296) % 256).toNat * 4294967296 +
      ((i / 16777216) % 256).toNat * 16777216 + ((i / 65536) % 256).toNat * 65536 +
      ((i / 256) % 256).toNat * 256 + (i % 256).toNat
      = (i % 18446744073709551616).toNat := by
  have hb : ((i / 72057594037927936) % 256).toNat
        = ((i % 18446744073709551616).toNat / 72057594037927936) % 256 ∧
      ((i / 281474976710656) % 256).toNat
        = ((i % 18446744073709551616).toNat / 281474976710656) % 256 ∧
      ((i / 1099511627776) % 256).toNat
        = ((i % 18446744073709551616).toNat / 1099511627776) % 256 ∧
      ((i / 4294967296) % 256).toNat
        = ((i % 18446744073709551616).toNat / 4294967296) % 256 ∧
      ((i / 16777216) % 256).toNat
        = ((i % 18446744073709551616).toNat / 16777216) % 256 ∧
      ((i / 65536) % 256).toNat = ((i % 18446744073709551616).toNat / 65536) % 256 ∧
      ((i / 256) % 256).toNat = ((i % 18446744073709551616).toNat / 256) % 256 ∧
      (i % 256).toNat = (i % 18446744073709551616).toNat % 256 ∧
      (i % 18446744073709551616).toNat < 18446744073709551616 :=
    ⟨by omega, by omega, by omega, by omega, by omega, by omega, by omega, by omega,
      by omega⟩
  obtain ⟨h7, h6, h5, h4, h3, h2, h1, h0, hu⟩ := hb
  rw [h7, h6, h5, h4, h3, h2, h1, h0]
  generalize (i % 18446744073709551616).toNat = u at hu
  omega

/-- Reading back the eight bytes of an `int64`. -/
theorem getMint64_putMint64 (i : Int) (rest : List Byte) (h : isInt64 i) :
    getMint64 (putMint64 i ++ rest) = i := by
  have e : getMuint64 (putMint64 i ++ rest) = (i % 18446744073709551616).toNat := by
    show getMuint64 (0xd3 :: byteOfInt (i >>> (56 : Nat)) :: byteOfInt (i >>> (48 : Nat)) ::
      byteOfInt (i >>> (40 : Nat)) :: byteOfInt (i >>> (32 : Nat)) ::
      byteOfInt (i >>> (24 : Nat)) :: byteOfInt (i >>> (16 : Nat)) ::
      byteOfInt (i >>> (8 : Nat)) :: byteOfInt i :: rest) = _
    rw [getMuint64_cons, byteOfInt_shift_val, byteOfInt_shift_val, byteOfInt_shift_val,
      byteOfInt_shift_val, byteOfInt_shift_val, byteOfInt_shift_val, byteOfInt_shift_val,
      byteOfInt_val]
    norm_num
    exact int64_bytes_sum i
  obtain ⟨h1, h2⟩ := h
  unfold getMint64 toSigned
  rw [e]
  norm_num
  split_ifs <;> omega

/-- Reading back an `int64` gives the integer and the bytes that follow it. -/
theorem ReadInt64Bytes_AppendInt64 (i : Int) (rest : List Byte) (h : isInt64 i) :
    ReadInt64Bytes (AppendInt64 [] i ++ rest) = (i, rest, none) := by
  obtain ⟨hlo, hhi⟩ := h
  unfold AppendInt64
  split_ifs with g0 g1 g2 g3 g4 g5 g6 g7
  · obtain ⟨hfix, hr⟩ := fixint_lead ⟨i.toNat, by omega⟩
    simp only at hfix hr
    have hi : ((i.toNat : Nat) : Int) = i := by omega
    simp [ReadInt64Bytes, hfix, hr, hi]
  · have hv := getMint16_putMint16 i rest (by omega) (by omega)
    have h1 : isfixint (0xd1 : Byte) = false := by decide
    have h2 : isnfixint (0xd1 : Byte) = false := by decide
    simp only [putMint16, List.nil_append, List.cons_append] at hv ⊢
    simp [ReadInt64Bytes, h1, h2, hv]
  · have hv := getMint32_putMint32 i rest (by omega) (by omega)
    have h1 : isfixint (0xd2 : Byte) = false := by decide
    have h2 : isnfixint (0xd2 : Byte) = false := by decide
    simp only [putMint32, List.nil_append, List.cons_append] at hv ⊢
    simp [ReadInt64Bytes, h1, h2, hv]
  · have hv := getMint64_putMint64 i rest ⟨hlo, hhi⟩
    have h1 : isfixint (0xd3 : Byte) = false := by decide
    have h2 : isnfixint (0xd3 : Byte) = false := by decide
    simp only [putMint64, List.nil_append, List.cons_append] at hv ⊢
    simp [ReadInt64Bytes, h1, h2, hv]
  · obtain ⟨hf, hn, hr⟩ := nfixint_lead ⟨(-1 - i).toNat, by omega⟩
    have hi : -1 - (((-1 - i).toNat : Nat) : Int) = i := by omega
    simp only [hi] at hf hn hr
    simp [ReadInt64Bytes, hf, hn, hr]
  · have hv := getMint8_putMint8 i rest (by omega) (by omega)
    have h1 : isfixint (0xd0 : Byte) = false := by decide
    have h2 : isnfixint (0xd0 : Byte) = false := by decide
    simp only [putMint8, List.nil_append, List.cons_append] at hv ⊢
    simp [ReadInt64Bytes, h1, h2, hv]
  · have hv := getMint16_putMint16 i rest (by omega) (by omega)
    have h1 : isfixint (0xd1 : Byte) = false := by decide
    have h2 : isnfixint (0xd1 : Byte) = false := by decide
    simp only [putMint16, List.nil_append, List.cons_append] at hv ⊢
    simp [ReadInt64Bytes, h1, h2, hv]
  · have hv := getMint32_putMint32 i rest (by omega) (by omega)
    have h1 : isfixint (0xd2 : Byte) = false := by decide
    have h2 : isnfixint (0xd2 : Byte) = false := by decide
    simp only [putMint32, List.nil_append, List.cons_append] at hv ⊢
    simp [ReadInt64Bytes, h1, h2, hv]
  · have hv := getMint64_putMint64 i rest ⟨hlo, hhi⟩
    have h1 : isfixint (0xd3 : Byte) = false := by decide
    have h2 : isnfixint (0xd3 : Byte) = false := by decide
    simp only [putMint64, List.nil_append, List.cons_append] at hv ⊢
    simp [ReadInt64Bytes, h1, h2, hv]

/-- Reading back a map key of at most 31 bytes. -/
theorem ReadMapKeyZC_AppendString (k rest : List Byte) (h : k.length < 4294967296) :
    ReadMapKeyZC (AppendString [] k ++ rest) = (k, rest, none) := by
  unfold ReadMapKeyZC
  rw [ReadStringZC_AppendString k rest h]

/-- The bytes `MarshalMsg(nil, m)` returns: the map header and, for each field, the key
and the value as `AppendString` and `AppendInt64` write them. -/
theorem MarshalMsg_bytes (m : DefaultModel) :
    (m.MarshalMsg []).1 = 0x83 :: (AppendString [] keyId ++ (AppendString [] m.Id ++
      (AppendString [] keyCreateTime ++ (AppendInt64 [] m.CreatedAt ++
        (AppendString [] keyLastModifyTime ++ AppendInt64 [] m.UpdatedAt))))) := by
  have k1 : AppendString [] keyId = [0xa2, 0x69, 0x64] := by decide
  have k2 : AppendString [] keyCreateTime
      = [0xab, 0x63, 0x72, 0x65, 0x61, 0x74, 0x65, 0x5f, 0x74, 0x69, 0x6d, 0x65] := by decide
  have k3 : AppendString [] keyLastModifyTime
      = [0xb0, 0x6c, 0x61, 0x73, 0x74, 0x5f, 0x6d, 0x6f, 0x64, 0x69, 0x66, 0x79,
          0x5f, 0x74, 0x69, 0x6d, 0x65] := by decide
  unfold DefaultModel.MarshalMsg Require
  simp only
  rw [AppendInt64_append, AppendInt64_append _ m.CreatedAt, AppendString_append, k1, k2, k3]
  simp

/-- A loop step of `UnmarshalMsg` at the key `"id"`. -/
theorem unmarshalFields_id (n : Nat) (z : DefaultModel) (bts b1 b2 : List Byte)
    (v : GoString) (hk : ReadMapKeyZC bts = (keyId, b1, none))
    (hv : ReadStringBytes b1 = (v, b2, none)) :
    unmarshalFields (n + 1) z bts = unmarshalFields n { z with Id := v } b2 := by
  rw [unmarshalFields, hk]
  simp only [if_true, hv]

/-- A loop step of `UnmarshalMsg` at the key `"create_time"`. -/
theorem unmarshalFields_create_time (n : Nat) (z : DefaultModel) (bts b1 b2 : List Byte)
    (v : Int) (hk : ReadMapKeyZC bts = (keyCreateTime, b1, none))
    (hv : ReadInt64Bytes b1 = (v, b2, none)) :
    unmarshalFields (n + 1) z bts = unmarshalFields n { z with CreatedAt := v } b2 := by
  have hne : ¬ keyCreateTime = keyId := by decide
  rw [unmarshalFields, hk]
  simp only [if_true, if_neg hne, hv]

/-- A loop step of `UnmarshalMsg` at the key `"last_modify_time"`. -/
theorem unmarshalFields_last_modify_time (n : Nat) (z : DefaultModel)
    (bts b1 b2 : List Byte) (v : Int)
    (hk : ReadMapKeyZC bts = (keyLastModifyTime, b1, none))
    (hv : ReadInt64Bytes b1 = (v, b2, none)) :
    unmarshalFields (n + 1) z bts = unmarshalFields n { z with UpdatedAt := v } b2 := by
  have hne1 : ¬ keyLastModifyTime = keyId := by decide
  have hne2 : ¬ keyLastModifyTime = keyCreateTime := by decide
  rw [unmarshalFields, hk]
  simp only [if_true, if_neg hne1, if_neg hne2, hv]

/-- A loop step of `UnmarshalMsg` at a key the model does not have: the value is
skipped and the model stays as it is. -/
theorem unmarshalFields_other (n : Nat) (z : DefaultModel) (bts b1 b2 field : List Byte)
    (hk : ReadMapKeyZC bts = (field, b1, none)) (h1 : field ≠ keyId)
    (h2 : field ≠ keyCreateTime) (h3 : field ≠ keyLastModifyTime)
    (hv : Skip b1 = (b2, none)) :
    unmarshalFields (n + 1) z bts = unmarshalFields n z b2 := by
  rw [unmarshalFields, hk]
  simp only [if_neg h1, if_neg h2, if_neg h3, hv]

/-- C16: for every model `m` with an `Id` shorter than `2 ^ 32` bytes and `int64`
times, and every byte sequence `rest`, `MarshalMsg(nil, m)` returns no error, and
`UnmarshalMsg` applied to its bytes followed by `rest` succeeds, returns exactly `rest`
and leaves the receiver's `Id`, `CreatedAt` and `UpdatedAt` equal to those of `m`. -/
theorem UnmarshalMsg_MarshalMsg (z m : DefaultModel) (rest : List Byte)
    (hid : m.Id.length < 4294967296) (hc : isInt64 m.CreatedAt) (hu : isInt64 m.UpdatedAt) :
    (m.MarshalMsg []).2 = none ∧
    (z.UnmarshalMsg ((m.MarshalMsg []).1 ++ rest)).2.2 = none ∧
    (z.UnmarshalMsg ((m.MarshalMsg []).1 ++ rest)).2.1 = rest ∧
    (z.UnmarshalMsg ((m.MarshalMsg []).1 ++ rest)).1.Id = m.Id ∧
    (z.UnmarshalMsg ((m.MarshalMsg []).1 ++ rest)).1.CreatedAt = m.CreatedAt ∧
    (z.UnmarshalMsg ((m.MarshalMsg []).1 ++ rest)).1.UpdatedAt = m.UpdatedAt := by
  have hhead : ReadMapHeaderBytes (0x83 :: (AppendString [] keyId ++ (AppendString [] m.Id ++
      (AppendString [] keyCreateTime ++ (AppendInt64 [] m.CreatedAt ++
        (AppendString [] keyLastModifyTime ++ (AppendInt64 [] m.UpdatedAt ++ rest)))))))
      = (3, AppendString [] keyId ++ (AppendString [] m.Id ++
      (AppendString [] keyCreateTime ++ (AppendInt64 [] m.CreatedAt ++
        (AppendString [] keyLastModifyTime ++ (AppendInt64 [] m.UpdatedAt ++ rest))))),
        none) := by
    have h1 : isfixmap (0x83 : Byte) = true := by decide
    have h2 : rfixmap (0x83 : Byte) = 3 := by decide
    simp [ReadMapHeaderBytes, h1, h2]
  have hrun : z.UnmarshalMsg ((m.MarshalMsg []).1 ++ rest)
      = ({ z with Id := m.Id, CreatedAt := m.CreatedAt, UpdatedAt := m.UpdatedAt },
          rest, none) := by
    rw [MarshalMsg_bytes]
    simp only [List.cons_append, List.append_assoc]
    unfold DefaultModel.UnmarshalMsg
    rw [hhead]
    simp only
    rw [unmarshalFields_id 2 z _ _ _ m.Id
        (ReadMapKeyZC_AppendString keyId _ (by decide))
        (ReadStringZC_AppendString m.Id _ hid),
      unmarshalFields_create_time 1 _ _ _ _ m.CreatedAt
        (ReadMapKeyZC_AppendString keyCreateTime _ (by decide))
        (ReadInt64Bytes_AppendInt64 m.CreatedAt _ hc),
      unmarshalFields_last_modify_time 0 _ _ _ _ m.UpdatedAt
        (ReadMapKeyZC_AppendString keyLastModifyTime _ (by decide))
        (ReadInt64Bytes_AppendInt64 m.UpdatedAt _ hu)]
    rfl
  rw [hrun]
  exact ⟨rfl, rfl, rfl, rfl, rfl, rfl⟩

set_option maxRecDepth 1000000 in
/-- C16 on a model with negative and boundary times, followed by three more bytes. -/
theorem UnmarshalMsg_MarshalMsg_witness :
    (sampleModel.UnmarshalMsg
      ((DefaultModel.MarshalMsg ⟨otherOID, lowerHexId, -9223372036854775808, -129⟩ []).1
        ++ [1, 2, 3])).2 = ([1, 2, 3], none) ∧
    (sampleModel.UnmarshalMsg
      ((DefaultModel.MarshalMsg ⟨otherOID, lowerHexId, -9223372036854775808, -129⟩ []).1
        ++ [1, 2, 3])).1.CreatedAt = -9223372036854775808 :=
  have h := UnmarshalMsg_MarshalMsg sampleModel
    ⟨otherOID, lowerHexId, -9223372036854775808, -129⟩ [1, 2, 3] (by decide) (by decide)
    (by decide)
  ⟨Prod.ext h.2.2.1 h.2.1, h.2.2.2.2.1⟩

/-! ## What `UnmarshalMsg` leaves alone -/

/-- Function `Skip` on an object of a size the lead byte fixes, with no elements. -/
theorem Skip_fixed (lead : Byte) (t : List Byte) (k : Nat) (ty : MsgType)
    (hs : sizes lead = ⟨k + 1, .fixed 0, ty⟩) (hl : k ≤ t.length) :
    Skip (lead :: t) = (t.drop k, none) := by
  have hg : getSize (lead :: t) = (k + 1, 0, none) := by
    simp [getSize, hs]
  have hlen : ¬ (t.length + 1 < k + 1) := by omega
  simp [Skip, skipObjects, hg, hlen]

/-- Function `Skip` on an object whose size follows the lead byte in one byte. -/
theorem Skip_extra8 (lead : Byte) (t : List Byte) (ty : MsgType)
    (hs : sizes lead = ⟨2, .extra8, ty⟩) (hl : 1 + byteAt (lead :: t) 1 ≤ t.length) :
    Skip (lead :: t) = (t.drop (1 + byteAt (lead :: t) 1), none) := by
  have hlen : ¬ (t.length + 1 < 2) := by omega
  have hg : getSize (lead :: t) = (2 + byteAt (lead :: t) 1, 0, none) := by
    simp [getSize, hs, hlen]
  have hlen2 : ¬ (t.length + 1 < 2 + byteAt (lead :: t) 1) := by omega
  have hd : List.drop (2 + byteAt (lead :: t) 1) (lead :: t)
      = List.drop (1 + byteAt (lead :: t) 1) t := by
    rw [show 2 + byteAt (lead :: t) 1 = (1 + byteAt (lead :: t) 1) + 1 by omega]
    rfl
  simp only [Skip, skipObjects, hg, List.length_cons, hlen2, if_false, Nat.add_zero, hd]

/-- Function `Skip` on an object whose size follows the lead byte in two bytes. -/
theorem Skip_extra16 (lead : Byte) (t : List Byte) (ty : MsgType)
    (hs : sizes lead = ⟨3, .extra16, ty⟩) (hl : 2 + getMuint16 (lead :: t) ≤ t.length) :
    Skip (lead :: t) = (t.drop (2 + getMuint16 (lead :: t)), none) := by
  have hlen : ¬ (t.length + 1 < 3) := by omega
  have hg : getSize (lead :: t) = (3 + getMuint16 (lead :: t), 0, none) := by
    simp [getSize, hs, hlen]
  have hlen2 : ¬ (t.length + 1 < 3 + getMuint16 (lead :: t)) := by omega
  have hd : List.drop (3 + getMuint16 (lead :: t)) (lead :: t)
      = List.drop (2 + getMuint16 (lead :: t)) t := by
    rw [show 3 + getMuint16 (lead :: t) = (2 + getMuint16 (lead :: t)) + 1 by omega]
    rfl
  simp only [Skip, skipObjects, hg, List.length_cons, hlen2, if_false, Nat.add_zero, hd]

/-- Function `Skip` on an object whose size follows the lead byte in four bytes. -/
theorem Skip_extra32 (lead : Byte) (t : List Byte) (ty : MsgType)
    (hs : sizes lead = ⟨5, .extra32, ty⟩) (hl : 4 + getMuint32 (lead :: t) ≤ t.length) :
    Skip (lead :: t) = (t.drop (4 + getMuint32 (lead :: t)), none) := by
  have hlen : ¬ (t.length + 1 < 5) := by omega
  have hg : getSize (lead :: t) = (5 + getMuint32 (lead :: t), 0, none) := by
    simp [getSize, hs, hlen]
  have hlen2 : ¬ (t.length + 1 < 5 + getMuint32 (lead :: t)) := by omega
  have hd : List.drop (5 + getMuint32 (lead :: t)) (lead :: t)
      = List.drop (4 + getMuint32 (lead :: t)) t := by
    rw [show 5 + getMuint32 (lead :: t) = (4 + getMuint32 (lead :: t)) + 1 by omega]
    rfl
  simp only [Skip, skipObjects, hg, List.length_cons, hlen2, if_false, Nat.add_zero, hd]

set_option maxRecDepth 100000 in
/-- The table entries of the short strings and of the integers that are their own
lead byte. -/
theorem sizes_fix : ∀ lead : Byte,
    (isfixstr lead = true → sizes lead = ⟨rfixstr lead + 1, .fixed 0, .StrType⟩) ∧
    (isfixint lead = true → sizes lead = ⟨0 + 1, .fixed 0, .IntType⟩) ∧
    (isnfixint lead = true → sizes lead = ⟨0 + 1, .fixed 0, .IntType⟩) := by
  decide

/-- Dropping from a slice given by its first element. -/
theorem drop_drop_cons (n k : Nat) (lead : Byte) (t : List Byte) :
    List.drop n (List.drop (k + 1) (lead :: t)) = List.drop (k + n) t := by
  rw [List.drop_succ_cons, List.drop_drop]

/-- Where `ReadStringZC` succeeds, `Skip` passes over the same bytes. -/
theorem Skip_of_ReadStringZC (b v o : List Byte) (h : ReadStringZC b = (v, o, none)) :
    Skip b = (o, none) := by
  cases b with
  | nil => simp [ReadStringZC] at h
  | cons lead t =>
    unfold ReadStringZC at h
    simp only at h
    split_ifs at h with h1 h2 h3 h4 h5 h6 h7 h8 h9 h10 h11
    all_goals first
      | (exfalso; simp at h; done)
      | skip
    · have ho : o = List.drop (0 + rfixstr lead) t := by
        rw [← drop_drop_cons (rfixstr lead) 0 lead t]
        exact (congrArg (fun r => r.2.1) h).symm
      have hl : rfixstr lead ≤ t.length := by
        simp only [List.drop_succ_cons, List.drop_zero] at h2
        omega
      rw [ho, Nat.zero_add]
      exact Skip_fixed lead t (rfixstr lead) .StrType ((sizes_fix lead).1 h1) hl
    · have ho : o = List.drop (1 + byteAt (lead :: t) 1) t := by
        rw [← drop_drop_cons (byteAt (lead :: t) 1) 1 lead t]
        exact (congrArg (fun r => r.2.1) h).symm
      have hl : 1 + byteAt (lead :: t) 1 ≤ t.length := by
        simp only [List.drop_succ_cons, List.length_drop, List.length_cons] at h4 h5
        omega
      have hs : sizes lead = ⟨2, .extra8, .StrType⟩ := by subst h3; decide
      rw [ho]
      exact Skip_extra8 lead t .StrType hs hl
    · have ho : o = List.drop (2 + getMuint16 (lead :: t)) t := by
        rw [← drop_drop_cons (getMuint16 (lead :: t)) 2 lead t]
        exact (congrArg (fun r => r.2.1) h).symm
      have hl : 2 + getMuint16 (lead :: t) ≤ t.length := by
        simp only [List.drop_succ_cons, List.length_drop, List.length_cons] at h7 h8
        omega
      have hs : sizes lead = ⟨3, .extra16, .StrType⟩ := by subst h6; decide
      rw [ho]
      exact Skip_extra16 lead t .StrType hs hl
    · have ho : o = List.drop (4 + getMuint32 (lead :: t)) t := by
        rw [← drop_drop_cons (getMuint32 (lead :: t)) 4 lead t]
        exact (congrArg (fun r => r.2.1) h).symm
      have hl : 4 + getMuint32 (lead :: t) ≤ t.length := by
        simp only [List.drop_succ_cons, List.length_drop, List.length_cons] at h10 h11
        omega
      have hs : sizes lead = ⟨5, .extra32, .StrType⟩ := by subst h9; decide
      rw [ho]
      exact Skip_extra32 lead t .StrType hs hl

/-- Where `ReadInt64Bytes` succeeds, `Skip` passes over the same bytes. -/
theorem Skip_of_ReadInt64Bytes (b o : List Byte) (v : Int)
    (h : ReadInt64Bytes b = (v, o, none)) : Skip b = (o, none) := by
  cases b with
  | nil => exact absurd (congrArg (fun r => r.2.2) h) (by simp [ReadInt64Bytes])
  | cons lead t =>
    unfold ReadInt64Bytes at h
    simp only at h
    by_cases h1 : isfixint lead = true
    · rw [if_pos h1] at h
      have ho : o = List.drop 0 t := (congrArg (fun r => r.2.1) h).symm
      rw [ho]
      exact Skip_fixed lead t 0 .IntType ((sizes_fix lead).2.1 h1) (by omega)
    rw [if_neg h1] at h
    by_cases h2 : isnfixint lead = true
    · rw [if_pos h2] at h
      have ho : o = List.drop 0 t := (congrArg (fun r => r.2.1) h).symm
      rw [ho]
      exact Skip_fixed lead t 0 .IntType ((sizes_fix lead).2.2 h2) (by omega)
    rw [if_neg h2] at h
    by_cases hlead : lead = 0xd0
    · rw [if_pos hlead] at h
      by_cases hlen : (lead :: t).length < 2
      · rw [if_pos hlen] at h
        exact absurd (congrArg (fun r => r.2.2) h) (by simp)
      · rw [if_neg hlen] at h
        have ho : o = List.drop 1 t := (congrArg (fun r => r.2.1) h).symm
        rw [ho]
        simp only [List.length_cons] at hlen
        exact Skip_fixed lead t 1 .IntType (by subst hlead; decide) (by omega)
    rw [if_neg hlead] at h
    clear hlead
    by_cases hlead : lead = 0xcc
    · rw [if_pos hlead] at h
      by_cases hlen : (lead :: t).length < 2
      · rw [if_pos hlen] at h
        exact absurd (congrArg (fun r => r.2.2) h) (by simp)
      · rw [if_neg hlen] at h
        have ho : o = List.drop 1 t := (congrArg (fun r => r.2.1) h).symm
        rw [ho]
        simp only [List.length_cons] at hlen
        exact Skip_fixed lead t 1 .UintType (by subst hlead; decide) (by omega)
    rw [if_neg hlead] at h
    clear hlead
    by_cases hlead : lead = 0xd1
    · rw [if_pos hlead] at h
      by_cases hlen : (lead :: t).length < 3
      · rw [if_pos hlen] at h
        exact absurd (congrArg (fun r => r.2.2) h) (by simp)
      · rw [if_neg hlen] at h
        have ho : o = List.drop 2 t := (congrArg (fun r => r.2.1) h).symm
        rw [ho]
        simp only [List.length_cons] at hlen
        exact Skip_fixed lead t 2 .IntType (by subst hlead; decide) (by omega)
    rw [if_neg hlead] at h
    clear hlead
    by_cases hlead : lead = 0xcd
    · rw [if_pos hlead] at h
      by_cases hlen : (lead :: t).length < 3
      · rw [if_pos hlen] at h
        exact absurd (congrArg (fun r => r.2.2) h) (by simp)
      · rw [if_neg hlen] at h
        have ho : o = List.drop 2 t := (congrArg (fun r => r.2.1) h).symm
        rw [ho]
        simp only [List.length_cons] at hlen
        exact Skip_fixed lead t 2 .UintType (by subst hlead; decide) (by omega)
    rw [if_neg hlead] at h
    clear hlead
    by_cases hlead : lead = 0xd2
    · rw [if_pos hlead] at h
      by_cases hlen : (lead :: t).length < 5
      · rw [if_pos hlen] at h
        exact absurd (congrArg (fun r => r.2.2) h) (by simp)
      · rw [if_neg hlen] at h
        have ho : o = List.drop 4 t := (congrArg (fun r => r.2.1) h).symm
        rw [ho]
        simp only [List.length_cons] at hlen
        exact Skip_fixed lead t 4 .IntType (by subst hlead; decide) (by omega)
    rw [if_neg hlead] at h
    clear hlead
    by_cases hlead : lead = 0xce
    · rw [if_pos hlead] at h
      by_cases hlen : (lead :: t).length < 5
      · rw [if_pos hlen] at h
        exact absurd (congrArg (fun r => r.2.2) h) (by simp)
      · rw [if_neg hlen] at h
        have ho : o = List.drop 4 t := (congrArg (fun r => r.2.1) h).symm
        rw [ho]
        simp only [List.length_cons] at hlen
        exact Skip_fixed lead t 4 .UintType (by subst hlead; decide) (by omega)
    rw [if_neg hlead] at h
    clear hlead
    by_cases hlead : lead = 0xd3
    · rw [if_pos hlead] at h
      by_cases hlen : (lead :: t).length < 9
      · rw [if_pos hlen] at h
        exact absurd (congrArg (fun r => r.2.2) h) (by simp)
      · rw [if_neg hlen] at h
        have ho : o = List.drop 8 t := (congrArg (fun r => r.2.1) h).symm
        rw [ho]
        simp only [List.length_cons] at hlen
        exact Skip_fixed lead t 8 .IntType (by subst hlead; decide) (by omega)
    rw [if_neg hlead] at h
    clear hlead
    by_cases hlead : lead = 0xcf
    · rw [if_pos hlead] at h
      by_cases hlen : (lead :: t).length < 9
      · rw [if_pos hlen] at h
        exact absurd (congrArg (fun r => r.2.2) h) (by simp)
      · rw [if_neg hlen] at h
        by_cases hov : getMuint64 (lead :: t) > 9223372036854775807
        · rw [if_pos hov] at h
          exact absurd (congrArg (fun r => r.2.2) h) (by simp)
        · rw [if_neg hov] at h
          have ho : o = List.drop 8 t := (congrArg (fun r => r.2.1) h).symm
          rw [ho]
          simp only [List.length_cons] at hlen
          exact Skip_fixed lead t 8 .UintType (by subst hlead; decide) (by omega)
    rw [if_neg hlead] at h
    exact absurd (congrArg (fun r => r.2.2) h) (by simp)

/-- A loop step of `UnmarshalMsg` at a key that cannot be read. -/
theorem unmarshalFields_key_error (n : Nat) (z : DefaultModel) (bts b1 field : List Byte)
    (e : MsgpError) (hk : ReadMapKeyZC bts = (field, b1, some e)) :
    unmarshalFields (n + 1) z bts = (z, [], some (WrapError e [])) := by
  rw [unmarshalFields, hk]

/-- A loop step of `UnmarshalMsg` at the key `"id"` with a value that is no string. -/
theorem unmarshalFields_id_error (n : Nat) (z : DefaultModel) (bts b1 b2 : List Byte)
    (v : GoString) (e : MsgpError) (hk : ReadMapKeyZC bts = (keyId, b1, none))
    (hv : ReadStringBytes b1 = (v, b2, some e)) :
    unmarshalFields (n + 1) z bts = ({ z with Id := v }, [], some (WrapError e [.Id])) := by
  rw [unmarshalFields, hk]
  simp only [if_true, hv]

/-- A loop step of `UnmarshalMsg` at the key `"create_time"` with a value that is no
`int64`. -/
theorem unmarshalFields_create_time_error (n : Nat) (z : DefaultModel)
    (bts b1 b2 : List Byte) (v : Int) (e : MsgpError)
    (hk : ReadMapKeyZC bts = (keyCreateTime, b1, none))
    (hv : ReadInt64Bytes b1 = (v, b2, some e)) :
    unmarshalFields (n + 1) z bts
      = ({ z with CreatedAt := v }, [], some (WrapError e [.CreatedAt])) := by
  have hne : ¬ keyCreateTime = keyId := by decide
  rw [unmarshalFields, hk]
  simp only [if_true, if_neg hne, hv]

/-- A loop step of `UnmarshalMsg` at the key `"last_modify_time"` with a value that is
no `int64`. -/
theorem unmarshalFields_last_modify_time_error (n : Nat) (z : DefaultModel)
    (bts b1 b2 : List Byte) (v : Int) (e : MsgpError)
    (hk : ReadMapKeyZC bts = (keyLastModifyTime, b1, none))
    (hv : ReadInt64Bytes b1 = (v, b2, some e)) :
    unmarshalFields (n + 1) z bts
      = ({ z with UpdatedAt := v }, [], some (WrapError e [.UpdatedAt])) := by
  have hne1 : ¬ keyLastModifyTime = keyId := by decide
  have hne2 : ¬ keyLastModifyTime = keyCreateTime := by decide
  rw [unmarshalFields, hk]
  simp only [if_true, if_neg hne1, if_neg hne2, hv]

/-- A loop step of `UnmarshalMsg` at a key the model does not have, with a value that
cannot be skipped. -/
theorem unmarshalFields_other_error (n : Nat) (z : DefaultModel)
    (bts b1 b2 field : List Byte) (e : MsgpError)
    (hk : ReadMapKeyZC bts = (field, b1, none)) (h1 : field ≠ keyId)
    (h2 : field ≠ keyCreateTime) (h3 : field ≠ keyLastModifyTime)
    (hv : Skip b1 = (b2, some e)) :
    unmarshalFields (n + 1) z bts = (z, [], some (WrapError e [])) := by
  rw [unmarshalFields, hk]
  simp only [if_neg h1, if_neg h2, if_neg h3, hv]

/-- The key of an entry that can be read is among the keys of the message. -/
theorem entryKeys_head (n : Nat) (bts b1 field : List Byte)
    (hk : ReadMapKeyZC bts = (field, b1, none)) : field ∈ entryKeys (n + 1) bts := by
  rw [entryKeys, hk]
  simp only
  split <;> simp

/-- The keys after an entry whose value can be skipped. -/
theorem entryKeys_succ (n : Nat) (bts b1 b2 field : List Byte)
    (hk : ReadMapKeyZC bts = (field, b1, none)) (hs : Skip b1 = (b2, none)) :
    entryKeys (n + 1) bts = field :: entryKeys n b2 := by
  rw [entryKeys, hk]
  simp only [hs]

/-- Two models with the same four fields are the same. -/
theorem DefaultModel_eq (a b : DefaultModel) (h1 : a.ObjectId = b.ObjectId)
    (h2 : a.Id = b.Id) (h3 : a.CreatedAt = b.CreatedAt) (h4 : a.UpdatedAt = b.UpdatedAt) :
    a = b := by
  cases a
  cases b
  simp only at h1 h2 h3 h4
  subst h1 h2 h3 h4
  rfl

/-- The loop of `UnmarshalMsg` writes a field only at its key: a field whose key is not
among the keys of the entries keeps its value, whether the loop succeeds or fails. -/
theorem unmarshalFields_frame (n : Nat) : ∀ (z : DefaultModel) (bts : List Byte),
    (keyId ∉ entryKeys n bts → (unmarshalFields n z bts).1.Id = z.Id) ∧
    (keyCreateTime ∉ entryKeys n bts →
      (unmarshalFields n z bts).1.CreatedAt = z.CreatedAt) ∧
    (keyLastModifyTime ∉ entryKeys n bts →
      (unmarshalFields n z bts).1.UpdatedAt = z.UpdatedAt) := by
  induction n with
  | zero => intro z bts; exact ⟨fun _ => rfl, fun _ => rfl, fun _ => rfl⟩
  | succ n ih =>
    intro z bts
    rcases hkey : ReadMapKeyZC bts with ⟨field, b1, _ | e⟩
    swap
    · rw [unmarshalFields_key_error n z bts b1 field e hkey]
      exact ⟨fun _ => rfl, fun _ => rfl, fun _ => rfl⟩
    have hmem := entryKeys_head n bts b1 field hkey
    by_cases hf1 : field = keyId
    · subst hf1
      rcases hv : ReadStringBytes b1 with ⟨v, b2, _ | e⟩
      · rw [unmarshalFields_id n z bts b1 b2 v hkey hv]
        exact ⟨fun hk => absurd hmem hk,
          fun hk => (ih _ b2).2.1 (fun hm => hk (by
            rw [entryKeys_succ n bts b1 b2 keyId hkey (Skip_of_ReadStringZC b1 v b2 hv)]
            exact List.mem_cons_of_mem _ hm)),
          fun hk => (ih _ b2).2.2 (fun hm => hk (by
            rw [entryKeys_succ n bts b1 b2 keyId hkey (Skip_of_ReadStringZC b1 v b2 hv)]
            exact List.mem_cons_of_mem _ hm))⟩
      · rw [unmarshalFields_id_error n z bts b1 b2 v e hkey hv]
        exact ⟨fun hk => absurd hmem hk, fun _ => rfl, fun _ => rfl⟩
    by_cases hf2 : field = keyCreateTime
    · subst hf2
      rcases hv : ReadInt64Bytes b1 with ⟨v, b2, _ | e⟩
      · rw [unmarshalFields_create_time n z bts b1 b2 v hkey hv]
        exact ⟨fun hk => (ih _ b2).1 (fun hm => hk (by
            rw [entryKeys_succ n bts b1 b2 keyCreateTime hkey
              (Skip_of_ReadInt64Bytes b1 b2 v hv)]
            exact List.mem_cons_of_mem _ hm)),
          fun hk => absurd hmem hk,
          fun hk => (ih _ b2).2.2 (fun hm => hk (by
            rw [entryKeys_succ n bts b1 b2 keyCreateTime hkey
              (Skip_of_ReadInt64Bytes b1 b2 v hv)]
            exact List.mem_cons_of_mem _ hm))⟩
      · rw [unmarshalFields_create_time_error n z bts b1 b2 v e hkey hv]
        exact ⟨fun _ => rfl, fun hk => absurd hmem hk, fun _ => rfl⟩
    by_cases hf3 : field = keyLastModifyTime
    · subst hf3
      rcases hv : ReadInt64Bytes b1 with ⟨v, b2, _ | e⟩
      · rw [unmarshalFields_last_modify_time n z bts b1 b2 v hkey hv]
        exact ⟨fun hk => (ih _ b2).1 (fun hm => hk (by
            rw [entryKeys_succ n bts b1 b2 keyLastModifyTime hkey
              (Skip_of_ReadInt64Bytes b1 b2 v hv)]
            exact List.mem_cons_of_mem _ hm)),
          fun hk => (ih _ b2).2.1 (fun hm => hk (by
            rw [entryKeys_succ n bts b1 b2 keyLastModifyTime hkey
              (Skip_of_ReadInt64Bytes b1 b2 v hv)]
            exact List.mem_cons_of_mem _ hm)),
          fun hk => absurd hmem hk⟩
      · rw [unmarshalFields_last_modify_time_error n z bts b1 b2 v e hkey hv]
        exact ⟨fun _ => rfl, fun _ => rfl, fun hk => absurd hmem hk⟩
    rcases hv : Skip b1 with ⟨b2, _ | e⟩
    · rw [unmarshalFields_other n z bts b1 b2 field hkey hf1 hf2 hf3 hv,
        entryKeys_succ n bts b1 b2 field hkey hv]
      exact ⟨fun hk => (ih z b2).1 (fun hm => hk (List.mem_cons_of_mem _ hm)),
        fun hk => (ih z b2).2.1 (fun hm => hk (List.mem_cons_of_mem _ hm)),
        fun hk => (ih z b2).2.2 (fun hm => hk (List.mem_cons_of_mem _ hm))⟩
    · rw [unmarshalFields_other_error n z bts b1 b2 field e hkey hf1 hf2 hf3 hv]
      exact ⟨fun _ => rfl, fun _ => rfl, fun _ => rfl⟩

/-! ## `EncodeMsg` and `MarshalMsg` write the same bytes -/

/-- Function `AppendString` writes the prefix for the length of the string, then the
string. -/
theorem AppendString_eq_prefix (s : GoString) :
    AppendString [] s = stringPrefix s.length ++ s := by
  unfold AppendString stringPrefix
  simp only
  split_ifs <;> simp

/-- A flush that succeeds hands over the buffer: nothing is lost and the buffer is
empty. -/
theorem Writer_flush_ok (mw : Writer) (h : mw.flush.2 = none) :
    mw.flush.1.written = mw.written ∧ mw.flush.1.buf = [] ∧
    mw.flush.1.bufsize = mw.bufsize := by
  unfold Writer.flush at h ⊢
  by_cases hb : mw.buf.length = 0
  · have hnil : mw.buf = [] := List.length_eq_zero.mp hb
    simp only [hb, if_true]
    exact ⟨trivial, hnil, trivial⟩
  · simp only [hb, if_false] at h ⊢
    unfold Writer.underlyingWrite at h ⊢
    cases hr : mw.room with
    | none => simp [hr, Writer.written]
    | some r =>
      simp only [hr] at h ⊢
      by_cases hfit : mw.buf.length ≤ r
      · simp [hfit, Writer.written]
      · simp [hfit] at h

/-- A flush to a writer that never fails succeeds. -/
theorem Writer_flush_room (mw : Writer) (h : mw.room = none) :
    mw.flush.2 = none ∧ mw.flush.1.room = none := by
  unfold Writer.flush
  by_cases hb : mw.buf.length = 0
  · simp [hb, h]
  · simp [hb, Writer.underlyingWrite, h]

/-- Writing at most a buffer of bytes, where it succeeds, adds exactly these bytes. -/
theorem Writer_put_ok (mw : Writer) (b : List Byte) (hwf : mw.wellFormed)
    (hb : b.length ≤ mw.bufsize) (h : (mw.put b).2 = none) :
    (mw.put b).1.written = mw.written ++ b ∧ (mw.put b).1.wellFormed := by
  obtain ⟨h18, hlen⟩ := hwf
  unfold Writer.put at h ⊢
  by_cases ha : mw.avail < b.length
  · simp only [ha, if_true] at h ⊢
    rcases hf : mw.flush with ⟨mw1, _ | e⟩
    · have hok := Writer_flush_ok mw (by rw [hf])
      rw [hf] at hok
      obtain ⟨hw, hbuf, hsz⟩ := hok
      simp only at hw hbuf hsz ⊢
      have hav : mw1.avail = mw1.bufsize := by simp [Writer.avail, hbuf]
      have htake : List.take mw1.avail b = b := by
        rw [hav, hsz]; exact List.take_of_length_le hb
      rw [htake]
      refine ⟨?_, ?_⟩
      · simp only [Writer.written] at hw ⊢
        rw [← hw, hbuf]
        simp
      · simp only [Writer.wellFormed, hbuf, hsz]
        exact ⟨h18, by simpa using hb⟩
    · rw [hf] at h
      simp at h
  · simp only [ha, if_false]
    have hav : b.length ≤ mw.avail := by omega
    have htake : List.take mw.avail b = b := List.take_of_length_le hav
    rw [htake]
    refine ⟨?_, ?_⟩
    · simp [Writer.written]
    · simp only [Writer.wellFormed, List.length_append]
      unfold Writer.avail at hav
      exact ⟨h18, by omega⟩

/-- Writing to a writer that never fails succeeds. -/
theorem Writer_put_room (mw : Writer) (b : List Byte) (h : mw.room = none) :
    (mw.put b).2 = none ∧ (mw.put b).1.room = none := by
  unfold Writer.put
  by_cases ha : mw.avail < b.length
  · simp only [ha, if_true]
    obtain ⟨h1, h2⟩ := Writer_flush_room mw h
    rcases hf : mw.flush with ⟨mw1, _ | e⟩
    · rw [hf] at h2
      exact ⟨rfl, h2⟩
    · rw [hf] at h1
      simp at h1
  · simp only [ha, if_false]
    exact ⟨trivial, h⟩

/-- The byte `byte(u >> k)` of the unsigned conversion is the byte `byte(i >> k)` of
the signed integer. -/
theorem toByte_toUnsigned (i : Int) :
    toByte (toUnsigned 8 i) = byteOfInt i ∧
    toByte (toUnsigned 16 i) = byteOfInt i ∧
    toByte (toUnsigned 16 i >>> 8) = byteOfInt (i >>> (8 : Nat)) ∧
    toByte (toUnsigned 32 i) = byteOfInt i ∧
    toByte (toUnsigned 32 i >>> 8) = byteOfInt (i >>> (8 : Nat)) ∧
    toByte (toUnsigned 32 i >>> 16) = byteOfInt (i >>> (16 : Nat)) ∧
    toByte (toUnsigned 32 i >>> 24) = byteOfInt (i >>> (24 : Nat)) := by
  refine ⟨?_, ?_, ?_, ?_, ?_, ?_, ?_⟩ <;>
    (apply Fin.ext
     simp only [toByte, byteOfInt, toUnsigned, Nat.shiftRight_eq_div_pow,
       Int.shiftRight_eq_div_pow]
     norm_num
     omega)

/-- The bytes of the unsigned conversion to 64 bits are the bytes of the signed
integer. -/
theorem toByte_toUnsigned64 (i : Int) :
    toByte (toUnsigned 64 i) = byteOfInt i ∧
    toByte (toUnsigned 64 i >>> 8) = byteOfInt (i >>> (8 : Nat)) ∧
    toByte (toUnsigned 64 i >>> 16) = byteOfInt (i >>> (16 : Nat)) ∧
    toByte (toUnsigned 64 i >>> 24) = byteOfInt (i >>> (24 : Nat)) ∧
    toByte (toUnsigned 64 i >>> 32) = byteOfInt (i >>> (32 : Nat)) ∧
    toByte (toUnsigned 64 i >>> 40) = byteOfInt (i >>> (40 : Nat)) ∧
    toByte (toUnsigned 64 i >>> 48) = byteOfInt (i >>> (48 : Nat)) ∧
    toByte (toUnsigned 64 i >>> 56) = byteOfInt (i >>> (56 : Nat)) := by
  refine ⟨?_, ?_, ?_, ?_, ?_, ?_, ?_, ?_⟩ <;>
    (apply Fin.ext
     simp only [toByte, byteOfInt, toUnsigned, Nat.shiftRight_eq_div_pow,
       Int.shiftRight_eq_div_pow]
     norm_num
     omega)

/-- Method `WriteInt64` writes the bytes of `AppendInt64` in one piece. -/
theorem WriteInt64_eq_put (mw : Writer) (i : Int) :
    mw.WriteInt64 i = mw.put (AppendInt64 [] i) := by
  obtain ⟨a8, a16, b16, a32, b32, c32, d32⟩ := toByte_toUnsigned i
  obtain ⟨a64, b64, c64, d64, e64, f64, g64, h64⟩ := toByte_toUnsigned64 i
  unfold Writer.WriteInt64 AppendInt64
  split_ifs <;>
    simp [Writer.push, Writer.prefix8, Writer.prefix16, Writer.prefix32, Writer.prefix64,
      prefixu8, prefixu16, prefixu32, putMint8, putMint16, putMint32, putMint64,
      a8, a16, b16, a32, b32, c32, d32, a64, b64, c64, d64, e64, f64, g64, h64]

/-- Method `WriteString` writes the prefix for the length converted to `uint32` in one
piece, then the string. -/
theorem WriteString_eq_put (mw : Writer) (s : GoString) :
    mw.WriteString s =
      match mw.put (stringPrefix (s.length % 4294967296)) with
      | (mw1, some err) => (mw1, some err)
      | (mw1, none) => mw1.writeString s := by
  unfold Writer.WriteString stringPrefix
  simp only
  split_ifs <;> rfl

/-- The prefix of a string has at most 5 bytes. -/
theorem stringPrefix_length (sz : Nat) : (stringPrefix sz).length ≤ 5 := by
  unfold stringPrefix
  split_ifs <;> simp [prefixu8, prefixu16, prefixu32]

/-- Method `writeString`, where it succeeds, adds exactly the bytes of the string. -/
theorem Writer_writeString_ok (mw : Writer) (s : GoString) (hwf : mw.wellFormed)
    (h : (mw.writeString s).2 = none) :
    (mw.writeString s).1.written = mw.written ++ s ∧ (mw.writeString s).1.wellFormed := by
  unfold Writer.writeString at h ⊢
  by_cases hs : s.length > mw.bufsize
  · simp only [hs, if_true] at h ⊢
    rcases hf : mw.flush with ⟨mw1, _ | e⟩
    · have hok := Writer_flush_ok mw (by rw [hf])
      rw [hf] at hok
      obtain ⟨hw, hbuf, hsz⟩ := hok
      simp only at hw hbuf hsz
      rw [hf] at h
      simp only at h ⊢
      unfold Writer.underlyingWrite at h ⊢
      cases hr : mw1.room with
      | none =>
        simp only [Writer.written, Writer.wellFormed, hbuf] at hw ⊢
        rw [← hw]
        exact ⟨by simp, by rw [hsz]; exact ⟨hwf.1, by simp⟩⟩
      | some r =>
        simp only [hr] at h ⊢
        by_cases hfit : s.length ≤ r
        · simp only [hfit, if_true, Writer.written, Writer.wellFormed, hbuf] at hw ⊢
          rw [← hw]
          exact ⟨by simp, by rw [hsz]; exact ⟨hwf.1, by simp⟩⟩
        · simp [hfit] at h
    · rw [hf] at h
      simp at h
  · simp only [hs, if_false] at h ⊢
    exact Writer_put_ok mw s hwf (by omega) h

/-- Method `writeString` to a writer that never fails succeeds. -/
theorem Writer_writeString_room (mw : Writer) (s : GoString) (h : mw.room = none) :
    (mw.writeString s).2 = none ∧ (mw.writeString s).1.room = none := by
  unfold Writer.writeString
  by_cases hs : s.length > mw.bufsize
  · simp only [hs, if_true]
    obtain ⟨h1, h2⟩ := Writer_flush_room mw h
    rcases hf : mw.flush with ⟨mw1, _ | e⟩
    · rw [hf] at h2
      simp only at h2 ⊢
      simp [Writer.underlyingWrite, h2]
    · rw [hf] at h1
      simp at h1
  · simp only [hs, if_false]
    exact Writer_put_room mw s h

/-- Method `WriteString`, where it succeeds, adds the prefix for the length converted
to `uint32` and the bytes of the string. -/
theorem Writer_WriteString_ok (mw : Writer) (s : GoString) (hwf : mw.wellFormed)
    (h : (mw.WriteString s).2 = none) :
    (mw.WriteString s).1.written
      = mw.written ++ (stringPrefix (s.length % 4294967296) ++ s) ∧
    (mw.WriteString s).1.wellFormed := by
  rw [WriteString_eq_put] at h ⊢
  have hlen := stringPrefix_length (s.length % 4294967296)
  rcases hp : mw.put (stringPrefix (s.length % 4294967296)) with ⟨mw1, _ | e⟩
  · obtain ⟨hw1, hwf1⟩ := Writer_put_ok mw (stringPrefix (s.length % 4294967296)) hwf
      (by have := hwf.1; omega) (by rw [hp])
    rw [hp] at hw1 hwf1 h
    simp only at hw1 hwf1 h ⊢
    obtain ⟨hw2, hwf2⟩ := Writer_writeString_ok mw1 s hwf1 h
    exact ⟨by rw [hw2, hw1, List.append_assoc], hwf2⟩
  · rw [hp] at h
    simp at h

/-- Method `WriteString` to a writer that never fails succeeds. -/
theorem Writer_WriteString_room (mw : Writer) (s : GoString) (h : mw.room = none) :
    (mw.WriteString s).2 = none ∧ (mw.WriteString s).1.room = none := by
  rw [WriteString_eq_put]
  obtain ⟨h1, h2⟩ := Writer_put_room mw (stringPrefix (s.length % 4294967296)) h
  rcases hp : mw.put (stringPrefix (s.length % 4294967296)) with ⟨mw1, _ | e⟩
  · rw [hp] at h2
    exact Writer_writeString_room mw1 s h2
  · rw [hp] at h1
    simp at h1

/-- Method `WriteInt64`, where it succeeds, adds the bytes of `AppendInt64`. -/
theorem Writer_WriteInt64_ok (mw : Writer) (i : Int) (hwf : mw.wellFormed)
    (h : (mw.WriteInt64 i).2 = none) :
    (mw.WriteInt64 i).1.written = mw.written ++ AppendInt64 [] i ∧
    (mw.WriteInt64 i).1.wellFormed := by
  rw [WriteInt64_eq_put] at h ⊢
  have hlen := AppendInt64_length [] i
  exact Writer_put_ok mw _ hwf (by have := hwf.1; simp at hlen; omega) h

/-- Method `WriteInt64` to a writer that never fails succeeds. -/
theorem Writer_WriteInt64_room (mw : Writer) (i : Int) (h : mw.room = none) :
    (mw.WriteInt64 i).2 = none ∧ (mw.WriteInt64 i).1.room = none := by
  rw [WriteInt64_eq_put]
  exact Writer_put_room mw _ h

/-- The bytes `EncodeMsg` writes where it returns no error: the header and the key
`"id"`, the prefix for the length of `Id` converted to `uint32` and `Id`, and the two
times under their keys. -/
theorem EncodeMsg_written (z : DefaultModel) (en : Writer) (hwf : en.wellFormed)
    (h : (z.EncodeMsg en).2 = none) :
    (z.EncodeMsg en).1.written = en.written ++ ([0x83, 0xa2, 0x69, 0x64] ++
      ((stringPrefix (z.Id.length % 4294967296) ++ z.Id) ++
      ([0xab, 0x63, 0x72, 0x65, 0x61, 0x74, 0x65, 0x5f, 0x74, 0x69, 0x6d, 0x65] ++
      (AppendInt64 [] z.CreatedAt ++
      ([0xb0, 0x6c, 0x61, 0x73, 0x74, 0x5f, 0x6d, 0x6f, 0x64, 0x69, 0x66, 0x79,
        0x5f, 0x74, 0x69, 0x6d, 0x65] ++ AppendInt64 [] z.UpdatedAt))))) := by
  have h18 := hwf.1
  unfold DefaultModel.EncodeMsg at h ⊢
  rcases h1 : en.Append [0x83, 0xa2, 0x69, 0x64] with ⟨en1, _ | e⟩
  swap
  · rw [h1] at h; simp at h
  rw [h1] at h
  simp only at h ⊢
  obtain ⟨w1, f1⟩ := Writer_put_ok en [0x83, 0xa2, 0x69, 0x64] hwf
    (by simp only [List.length_cons, List.length_nil]; omega)
    (by show (en.Append _).2 = none; rw [h1])
  rw [show en.put [0x83, 0xa2, 0x69, 0x64] = en.Append [0x83, 0xa2, 0x69, 0x64] from rfl,
    h1] at w1 f1
  simp only at w1 f1
  rcases h2 : en1.WriteString z.Id with ⟨en2, _ | e⟩
  swap
  · rw [h2] at h; simp at h
  rw [h2] at h
  simp only at h ⊢
  obtain ⟨w2, f2⟩ := Writer_WriteString_ok en1 z.Id f1 (by rw [h2])
  rw [h2] at w2 f2
  simp only at w2 f2
  have h182 := f2.1
  rcases h3 : en2.Append
      [0xab, 0x63, 0x72, 0x65, 0x61, 0x74, 0x65, 0x5f, 0x74, 0x69, 0x6d, 0x65]
    with ⟨en3, _ | e⟩
  swap
  · rw [h3] at h; simp at h
  rw [h3] at h
  simp only at h ⊢
  obtain ⟨w3, f3⟩ := Writer_put_ok en2
    [0xab, 0x63, 0x72, 0x65, 0x61, 0x74, 0x65, 0x5f, 0x74, 0x69, 0x6d, 0x65] f2
    (by simp only [List.length_cons, List.length_nil]; omega)
    (by show (en2.Append _).2 = none; rw [h3])
  rw [show en2.put [0xab, 0x63, 0x72, 0x65, 0x61, 0x74, 0x65, 0x5f, 0x74, 0x69, 0x6d, 0x65]
      = en2.Append [0xab, 0x63, 0x72, 0x65, 0x61, 0x74, 0x65, 0x5f, 0x74, 0x69, 0x6d, 0x65]
      from rfl, h3] at w3 f3
  simp only at w3 f3
  rcases h4 : en3.WriteInt64 z.CreatedAt with ⟨en4, _ | e⟩
  swap
  · rw [h4] at h; simp at h
  rw [h4] at h
  simp only at h ⊢
  obtain ⟨w4, f4⟩ := Writer_WriteInt64_ok en3 z.CreatedAt f3 (by rw [h4])
  rw [h4] at w4 f4
  simp only at w4 f4
  have h184 := f4.1
  rcases h5 : en4.Append
      [0xb0, 0x6c, 0x61, 0x73, 0x74, 0x5f, 0x6d, 0x6f, 0x64, 0x69, 0x66, 0x79,
        0x5f, 0x74, 0x69, 0x6d, 0x65]
    with ⟨en5, _ | e⟩
  swap
  · rw [h5] at h; simp at h
  rw [h5] at h
  simp only at h ⊢
  obtain ⟨w5, f5⟩ := Writer_put_ok en4
    [0xb0, 0x6c, 0x61, 0x73, 0x74, 0x5f, 0x6d, 0x6f, 0x64, 0x69, 0x66, 0x79,
      0x5f, 0x74, 0x69, 0x6d, 0x65] f4
    (by simp only [List.length_cons, List.length_nil]; omega)
    (by show (en4.Append _).2 = none; rw [h5])
  rw [show en4.put [0xb0, 0x6c, 0x61, 0x73, 0x74, 0x5f, 0x6d, 0x6f, 0x64, 0x69, 0x66, 0x79,
        0x5f, 0x74, 0x69, 0x6d, 0x65]
      = en4.Append [0xb0, 0x6c, 0x61, 0x73, 0x74, 0x5f, 0x6d, 0x6f, 0x64, 0x69, 0x66, 0x79,
        0x5f, 0x74, 0x69, 0x6d, 0x65] from rfl, h5] at w5 f5
  simp only at w5 f5
  rcases h6 : en5.WriteInt64 z.UpdatedAt with ⟨en6, _ | e⟩
  swap
  · rw [h6] at h; simp at h
  obtain ⟨w6, _⟩ := Writer_WriteInt64_ok en5 z.UpdatedAt f5 (by rw [h6])
  rw [h6] at w6
  simp only at w6 ⊢
  rw [w6, w5, w4, w3, w2, w1]
  simp only [List.append_assoc]

/-- Method `EncodeMsg` to a writer that never fails returns no error. -/
theorem EncodeMsg_room (z : DefaultModel) (en : Writer) (hroom : en.room = none) :
    (z.EncodeMsg en).2 = none := by
  unfold DefaultModel.EncodeMsg
  obtain ⟨a1, r1⟩ := Writer_put_room en [0x83, 0xa2, 0x69, 0x64] hroom
  rcases h1 : en.Append [0x83, 0xa2, 0x69, 0x64] with ⟨en1, _ | e⟩
  swap
  · rw [show en.put [0x83, 0xa2, 0x69, 0x64] = en.Append [0x83, 0xa2, 0x69, 0x64] from rfl,
      h1] at a1
    simp at a1
  rw [show en.put [0x83, 0xa2, 0x69, 0x64] = en.Append [0x83, 0xa2, 0x69, 0x64] from rfl,
    h1] at r1
  simp only at r1 ⊢
  obtain ⟨a2, r2⟩ := Writer_WriteString_room en1 z.Id r1
  rcases h2 : en1.WriteString z.Id with ⟨en2, _ | e⟩
  swap
  · rw [h2] at a2; simp at a2
  rw [h2] at r2
  simp only at r2 ⊢
  obtain ⟨a3, r3⟩ := Writer_put_room en2
    [0xab, 0x63, 0x72, 0x65, 0x61, 0x74, 0x65, 0x5f, 0x74, 0x69, 0x6d, 0x65] r2
  rcases h3 : en2.Append
      [0xab, 0x63, 0x72, 0x65, 0x61, 0x74, 0x65, 0x5f, 0x74, 0x69, 0x6d, 0x65]
    with ⟨en3, _ | e⟩
  swap
  · rw [show en2.put [0xab, 0x63, 0x72, 0x65, 0x61, 0x74, 0x65, 0x5f, 0x74, 0x69, 0x6d, 0x65]
      = en2.Append [0xab, 0x63, 0x72, 0x65, 0x61, 0x74, 0x65, 0x5f, 0x74, 0x69, 0x6d, 0x65]
      from rfl, h3] at a3
    simp at a3
  rw [show en2.put [0xab, 0x63, 0x72, 0x65, 0x61, 0x74, 0x65, 0x5f, 0x74, 0x69, 0x6d, 0x65]
      = en2.Append [0xab, 0x63, 0x72, 0x65, 0x61, 0x74, 0x65, 0x5f, 0x74, 0x69, 0x6d, 0x65]
      from rfl, h3] at r3
  simp only at r3 ⊢
  obtain ⟨a4, r4⟩ := Writer_WriteInt64_room en3 z.CreatedAt r3
  rcases h4 : en3.WriteInt64 z.CreatedAt with ⟨en4, _ | e⟩
  swap
  · rw [h4] at a4; simp at a4
  rw [h4] at r4
  simp only at r4 ⊢
  obtain ⟨a5, r5⟩ := Writer_put_room en4
    [0xb0, 0x6c, 0x61, 0x73, 0x74, 0x5f, 0x6d, 0x6f, 0x64, 0x69, 0x66, 0x79,
      0x5f, 0x74, 0x69, 0x6d, 0x65] r4
  rcases h5 : en4.Append
      [0xb0, 0x6c, 0x61, 0x73, 0x74, 0x5f, 0x6d, 0x6f, 0x64, 0x69, 0x66, 0x79,
        0x5f, 0x74, 0x69, 0x6d, 0x65]
    with ⟨en5, _ | e⟩
  swap
  · rw [show en4.put [0xb0, 0x6c, 0x61, 0x73, 0x74, 0x5f, 0x6d, 0x6f, 0x64, 0x69, 0x66, 0x79,
        0x5f, 0x74, 0x69, 0x6d, 0x65]
      = en4.Append [0xb0, 0x6c, 0x61, 0x73, 0x74, 0x5f, 0x6d, 0x6f, 0x64, 0x69, 0x66, 0x79,
        0x5f, 0x74, 0x69, 0x6d, 0x65] from rfl, h5] at a5
    simp at a5
  rw [show en4.put [0xb0, 0x6c, 0x61, 0x73, 0x74, 0x5f, 0x6d, 0x6f, 0x64, 0x69, 0x66, 0x79,
        0x5f, 0x74, 0x69, 0x6d, 0x65]
      = en4.Append [0xb0, 0x6c, 0x61, 0x73, 0x74, 0x5f, 0x6d, 0x6f, 0x64, 0x69, 0x66, 0x79,
        0x5f, 0x74, 0x69, 0x6d, 0x65] from rfl, h5] at r5
  simp only at r5 ⊢
  obtain ⟨a6, _⟩ := Writer_WriteInt64_room en5 z.UpdatedAt r5
  rcases h6 : en5.WriteInt64 z.UpdatedAt with ⟨en6, _ | e⟩
  · rfl
  · rw [h6] at a6; simp at a6

/-- C18, counterexample: for the model whose `Id` has `2 ^ 32` bytes and a writer that
never fails, `EncodeMsg` returns no error and the bytes it writes are not the bytes
`MarshalMsg(nil)` returns: `WriteString` converts the length to `uint32` before it
chooses the prefix and writes the lead byte `0xa0`, `AppendString` chooses by the length
itself and writes `0xdb`. -/
theorem EncodeMsg_hugeId_differs :
    (hugeModel.EncodeMsg (NewWriterSize none 0)).2 = none ∧
    (hugeModel.MarshalMsg []).2 = none ∧
    (hugeModel.EncodeMsg (NewWriterSize none 0)).1.written ≠ (hugeModel.MarshalMsg []).1 ∧
    (hugeModel.EncodeMsg (NewWriterSize none 0)).1.written.get? 4 = some 0xa0 ∧
    (hugeModel.MarshalMsg []).1.get? 4 = some 0xdb := by
  have hlen : hugeModel.Id.length = 4294967296 := List.length_replicate _ _
  have hok := EncodeMsg_room hugeModel (NewWriterSize none 0) rfl
  have hwf : (NewWriterSize none 0).wellFormed := by decide
  have k1 : AppendString [] keyId = [0xa2, 0x69, 0x64] := by decide
  have p1 : stringPrefix (4294967296 % 4294967296) = [0xa0] := by decide
  have p2 : stringPrefix 4294967296 = [0xdb, 0, 0, 0, 0] := by decide
  have hw : (NewWriterSize none 0).written = [] := rfl
  have e1 : (hugeModel.EncodeMsg (NewWriterSize none 0)).1.written.get? 4 = some 0xa0 := by
    rw [EncodeMsg_written hugeModel _ hwf hok, hlen, p1, hw]
    rfl
  have e2 : (hugeModel.MarshalMsg []).1.get? 4 = some 0xdb := by
    rw [MarshalMsg_bytes, AppendString_eq_prefix hugeModel.Id, hlen, k1, p2]
    rfl
  refine ⟨hok, rfl, ?_, e1, e2⟩
  intro h
  rw [h, e2] at e1
  exact absurd e1 (by decide)

/-- C18, amended: for a model whose `Id` is shorter than `2 ^ 32` bytes and a `Writer`
in the state `NewWriterSize` makes and its methods keep, `EncodeMsg` returns no error
when no write to the underlying writer fails, and whenever it returns no error the
bytes it has added to those written before are exactly the bytes `MarshalMsg(nil)`
returns, which are the header `0x83` and the keys `"id"`, `"create_time"`,
`"last_modify_time"` in this order, each followed by its value. -/
theorem EncodeMsg_eq_MarshalMsg (z : DefaultModel) (en : Writer) (hwf : en.wellFormed)
    (hid : z.Id.length < 4294967296) :
    (en.room = none → (z.EncodeMsg en).2 = none) ∧
    ((z.EncodeMsg en).2 = none →
      (z.EncodeMsg en).1.written = en.written ++ (z.MarshalMsg []).1) ∧
    (z.MarshalMsg []).2 = none ∧
    (z.MarshalMsg []).1 = 0x83 :: (AppendString [] keyId ++ (AppendString [] z.Id ++
      (AppendString [] keyCreateTime ++ (AppendInt64 [] z.CreatedAt ++
        (AppendString [] keyLastModifyTime ++ AppendInt64 [] z.UpdatedAt))))) := by
  have k1 : AppendString [] keyId = [0xa2, 0x69, 0x64] := by decide
  have k2 : AppendString [] keyCreateTime
      = [0xab, 0x63, 0x72, 0x65, 0x61, 0x74, 0x65, 0x5f, 0x74, 0x69, 0x6d, 0x65] := by decide
  have k3 : AppendString [] keyLastModifyTime
      = [0xb0, 0x6c, 0x61, 0x73, 0x74, 0x5f, 0x6d, 0x6f, 0x64, 0x69, 0x66, 0x79,
          0x5f, 0x74, 0x69, 0x6d, 0x65] := by decide
  refine ⟨EncodeMsg_room z en, ?_, rfl, MarshalMsg_bytes z⟩
  intro h
  rw [EncodeMsg_written z en hwf h, MarshalMsg_bytes, AppendString_eq_prefix z.Id,
    Nat.mod_eq_of_lt hid, k1, k2, k3]
  rfl

/-- C18, at the sample model and a fresh writer that never fails: `EncodeMsg` returns
no error and has written the bytes of `MarshalMsg(nil)`. -/
theorem EncodeMsg_eq_MarshalMsg_witness :
    (NewWriterSize none 0).wellFormed ∧ sampleModel.Id.length < 4294967296 ∧
    (NewWriterSize none 0).room = none ∧
    (sampleModel.EncodeMsg (NewWriterSize none 0)).2 = none ∧
    (sampleModel.EncodeMsg (NewWriterSize none 0)).1.written
      = (NewWriterSize none 0).written ++ (sampleModel.MarshalMsg []).1 ∧
    (sampleModel.MarshalMsg []).2 = none ∧
    (sampleModel.MarshalMsg []).1 = 0x83 :: (AppendString [] keyId ++
      (AppendString [] sampleModel.Id ++
      (AppendString [] keyCreateTime ++ (AppendInt64 [] sampleModel.CreatedAt ++
        (AppendString [] keyLastModifyTime ++ AppendInt64 [] sampleModel.UpdatedAt))))) :=
  have t := EncodeMsg_eq_MarshalMsg sampleModel (NewWriterSize none 0) (by decide) (by decide)
  ⟨by decide, by decide, rfl, t.1 rfl, t.2.1 (t.1 rfl), t.2.2⟩

/-! ## `UnmarshalMsg` passes over the entries under other keys -/

/-- The keys `entryKeys` lists are the keys of the entries. -/
theorem entryKeys_eq_map (n : Nat) : ∀ bts : List Byte,
    entryKeys n bts = (entryValues n bts).map Prod.fst := by
  induction n with
  | zero => intro bts; rfl
  | succ n ih =>
    intro bts
    rw [entryKeys, entryValues]
    rcases hk : ReadMapKeyZC bts with ⟨field, b1, _ | e⟩
    · simp only
      rcases hs : Skip b1 with ⟨b2, _ | e⟩
      · simp only [List.map_cons, ih]
      · rfl
    · rfl

/-- The keys of a message are the keys of its entries. -/
theorem messageKeys_eq_map (bts : List Byte) :
    messageKeys bts = (messageEntries bts).map Prod.fst := by
  unfold messageKeys messageEntries
  rcases hh : ReadMapHeaderBytes bts with ⟨n, b1, _ | e⟩
  · exact entryKeys_eq_map n b1
  · rfl

/-- The last value under a key, with an entry under that key in front. -/
theorem lastValueOf_cons_self (key b : List Byte) (es : List (List Byte × List Byte)) :
    lastValueOf key ((key, b) :: es) = some ((lastValueOf key es).getD b) := by
  rw [lastValueOf]
  cases lastValueOf key es <;> simp

/-- The last value under a key, with an entry under another key in front. -/
theorem lastValueOf_cons_ne (key k b : List Byte) (es : List (List Byte × List Byte))
    (h : k ≠ key) : lastValueOf key ((k, b) :: es) = lastValueOf key es := by
  rw [lastValueOf]
  cases lastValueOf key es <;> simp [h]

/-- Where all `n` entries can be passed over, there are `n` of them. -/
theorem afterEntries_length (n : Nat) : ∀ (bts o : List Byte),
    afterEntries n bts = some o → (entryValues n bts).length = n := by
  induction n with
  | zero => intro bts o _; rfl
  | succ n ih =>
    intro bts o h
    rw [afterEntries] at h
    rw [entryValues]
    rcases hk : ReadMapKeyZC bts with ⟨field, b1, _ | e⟩
    · rw [hk] at h
      simp only at h ⊢
      rcases hs : Skip b1 with ⟨b2, _ | e⟩
      · rw [hs] at h
        simp only at h ⊢
        rw [List.length_cons, ih b2 o h]
      · rw [hs] at h
        simp at h
    · rw [hk] at h
      simp at h

/-- A loop step of `UnmarshalMsg` at an entry whose value its reader accepts: the
entry is applied and the loop goes on behind the value. -/
theorem unmarshalFields_step (n : Nat) (z : DefaultModel) (bts b1 b2 field : List Byte)
    (hk : ReadMapKeyZC bts = (field, b1, none)) (hs : Skip b1 = (b2, none))
    (hd : valueDecodes (field, b1)) :
    unmarshalFields (n + 1) z bts = unmarshalFields n (applyEntry z (field, b1)) b2 := by
  unfold valueDecodes at hd
  unfold applyEntry
  simp only at hd ⊢
  by_cases hf1 : field = keyId
  · subst hf1
    rw [if_pos rfl] at hd ⊢
    rcases hv : ReadStringBytes b1 with ⟨v, b3, _ | e⟩
    · have h3 := Skip_of_ReadStringZC b1 v b3 hv
      rw [hs] at h3
      have hb : b2 = b3 := congrArg Prod.fst h3
      subst hb
      exact unmarshalFields_id n z bts b1 b2 v hk hv
    · rw [hv] at hd
      simp at hd
  rw [if_neg hf1] at hd ⊢
  by_cases hf2 : field = keyCreateTime
  · subst hf2
    rw [if_pos rfl] at hd ⊢
    rcases hv : ReadInt64Bytes b1 with ⟨v, b3, _ | e⟩
    · have h3 := Skip_of_ReadInt64Bytes b1 b3 v hv
      rw [hs] at h3
      have hb : b2 = b3 := congrArg Prod.fst h3
      subst hb
      exact unmarshalFields_create_time n z bts b1 b2 v hk hv
    · rw [hv] at hd
      simp at hd
  rw [if_neg hf2] at hd ⊢
  by_cases hf3 : field = keyLastModifyTime
  · subst hf3
    rw [if_pos rfl] at hd ⊢
    rcases hv : ReadInt64Bytes b1 with ⟨v, b3, _ | e⟩
    · have h3 := Skip_of_ReadInt64Bytes b1 b3 v hv
      rw [hs] at h3
      have hb : b2 = b3 := congrArg Prod.fst h3
      subst hb
      exact unmarshalFields_last_modify_time n z bts b1 b2 v hk hv
    · rw [hv] at hd
      simp at hd
  rw [if_neg hf3]
  exact unmarshalFields_other n z bts b1 b2 field hk hf1 hf2 hf3 hs

/-- A loop step of `UnmarshalMsg` at an entry whose value its reader does not accept:
the loop ends with an error. -/
theorem unmarshalFields_step_error (n : Nat) (z : DefaultModel) (bts b1 field : List Byte)
    (hk : ReadMapKeyZC bts = (field, b1, none)) (hd : ¬ valueDecodes (field, b1)) :
    (unmarshalFields (n + 1) z bts).2.2 ≠ none := by
  unfold valueDecodes at hd
  simp only at hd
  by_cases hf1 : field = keyId
  · subst hf1
    rw [if_pos rfl] at hd
    rcases hv : ReadStringBytes b1 with ⟨v, b3, _ | e⟩
    · rw [hv] at hd
      exact absurd rfl hd
    · rw [unmarshalFields_id_error n z bts b1 b3 v e hk hv]
      simp
  rw [if_neg hf1] at hd
  by_cases hf2 : field = keyCreateTime
  · subst hf2
    rw [if_pos rfl] at hd
    rcases hv : ReadInt64Bytes b1 with ⟨v, b3, _ | e⟩
    · rw [hv] at hd
      exact absurd rfl hd
    · rw [unmarshalFields_create_time_error n z bts b1 b3 v e hk hv]
      simp
  rw [if_neg hf2] at hd
  by_cases hf3 : field = keyLastModifyTime
  · subst hf3
    rw [if_pos rfl] at hd
    rcases hv : ReadInt64Bytes b1 with ⟨v, b3, _ | e⟩
    · rw [hv] at hd
      exact absurd rfl hd
    · rw [unmarshalFields_last_modify_time_error n z bts b1 b3 v e hk hv]
      simp
  rw [if_neg hf3] at hd
  exact absurd trivial hd

/-- A loop step of `UnmarshalMsg` at an entry whose value cannot be passed over: the
loop ends with an error, whatever the key is. -/
theorem unmarshalFields_skip_error (n : Nat) (z : DefaultModel)
    (bts b1 b2 field : List Byte) (e : MsgpError)
    (hk : ReadMapKeyZC bts = (field, b1, none)) (hs : Skip b1 = (b2, some e)) :
    (unmarshalFields (n + 1) z bts).2.2 ≠ none := by
  by_cases hd : valueDecodes (field, b1)
  swap
  · exact unmarshalFields_step_error n z bts b1 field hk hd
  unfold valueDecodes at hd
  simp only at hd
  by_cases hf1 : field = keyId
  · subst hf1
    rw [if_pos rfl] at hd
    rcases hv : ReadStringBytes b1 with ⟨v, b3, _ | e1⟩
    · have h3 := Skip_of_ReadStringZC b1 v b3 hv
      rw [hs] at h3
      exact absurd (congrArg Prod.snd h3) (by simp)
    · rw [hv] at hd
      simp at hd
  rw [if_neg hf1] at hd
  by_cases hf2 : field = keyCreateTime
  · subst hf2
    rw [if_pos rfl] at hd
    rcases hv : ReadInt64Bytes b1 with ⟨v, b3, _ | e1⟩
    · have h3 := Skip_of_ReadInt64Bytes b1 b3 v hv
      rw [hs] at h3
      exact absurd (congrArg Prod.snd h3) (by simp)
    · rw [hv] at hd
      simp at hd
  rw [if_neg hf2] at hd
  by_cases hf3 : field = keyLastModifyTime
  · subst hf3
    rw [if_pos rfl] at hd
    rcases hv : ReadInt64Bytes b1 with ⟨v, b3, _ | e1⟩
    · have h3 := Skip_of_ReadInt64Bytes b1 b3 v hv
      rw [hs] at h3
      exact absurd (congrArg Prod.snd h3) (by simp)
    · rw [hv] at hd
      simp at hd
  rw [unmarshalFields_other_error n z bts b1 b2 field e hk hf1 hf2 hf3 hs]
  simp

/-- The loop of `UnmarshalMsg` over `n` entries succeeds exactly where every entry can
be passed over and has a value its reader accepts; and then it returns the bytes that
follow the entries and the model with every entry applied in order. -/
theorem unmarshalFields_entries (n : Nat) : ∀ (z : DefaultModel) (bts : List Byte),
    ((unmarshalFields n z bts).2.2 = none ↔
      (afterEntries n bts ≠ none ∧ ∀ e ∈ entryValues n bts, valueDecodes e)) ∧
    ((unmarshalFields n z bts).2.2 = none →
      afterEntries n bts = some (unmarshalFields n z bts).2.1 ∧
      (unmarshalFields n z bts).1 = (entryValues n bts).foldl applyEntry z) := by
  induction n with
  | zero =>
    intro z bts
    refine ⟨⟨fun _ => ⟨by simp [afterEntries], by simp [entryValues]⟩, fun _ => rfl⟩,
      fun _ => ⟨rfl, rfl⟩⟩
  | succ n ih =>
    intro z bts
    rcases hk : ReadMapKeyZC bts with ⟨field, b1, _ | e⟩
    swap
    · have herr : (unmarshalFields (n + 1) z bts).2.2 ≠ none := by
        rw [unmarshalFields_key_error n z bts b1 field e hk]
        simp
      have hafter : afterEntries (n + 1) bts = none := by rw [afterEntries, hk]
      exact ⟨⟨fun h => absurd h herr, fun h => absurd hafter h.1⟩, fun h => absurd h herr⟩
    rcases hs : Skip b1 with ⟨b2, _ | e⟩
    swap
    · have herr := unmarshalFields_skip_error n z bts b1 b2 field e hk hs
      have hafter : afterEntries (n + 1) bts = none := by
        rw [afterEntries, hk]
        simp only [hs]
      exact ⟨⟨fun h => absurd h herr, fun h => absurd hafter h.1⟩, fun h => absurd h herr⟩
    have hafter : afterEntries (n + 1) bts = afterEntries n b2 := by
      rw [afterEntries, hk]
      simp only [hs]
    have hvals : entryValues (n + 1) bts = (field, b1) :: entryValues n b2 := by
      rw [entryValues, hk]
      simp only [hs]
    by_cases hd : valueDecodes (field, b1)
    swap
    · have herr := unmarshalFields_step_error n z bts b1 field hk hd
      refine ⟨⟨fun h => absurd h herr, fun h => ?_⟩, fun h => absurd h herr⟩
      exact absurd (h.2 (field, b1) (by rw [hvals]; exact List.mem_cons_self _ _)) hd
    rw [unmarshalFields_step n z bts b1 b2 field hk hs hd, hafter, hvals]
    have ih1 := ih (applyEntry z (field, b1)) b2
    refine ⟨⟨fun h => ?_, fun h => ?_⟩, fun h => ?_⟩
    · have h2 := ih1.1.1 h
      refine ⟨h2.1, fun e he => ?_⟩
      rcases List.mem_cons.1 he with he1 | he2
      · rw [he1]; exact hd
      · exact h2.2 e he2
    · exact ih1.1.2 ⟨h.1, fun e he => h.2 e (List.mem_cons_of_mem _ he)⟩
    · have h2 := ih1.2 h
      exact ⟨h2.1, by rw [h2.2, List.foldl_cons]⟩

/-- Field `Id` after the entries are applied in order: the string read at the last
entry under `"id"`, and the prior value where there is none. -/
theorem foldl_applyEntry_Id (es : List (List Byte × List Byte)) : ∀ z : DefaultModel,
    (es.foldl applyEntry z).Id
      = ((lastValueOf keyId es).map (fun vb => (ReadStringBytes vb).1)).getD z.Id := by
  induction es with
  | nil => intro z; rfl
  | cons e es ih =>
    intro z
    obtain ⟨k, b⟩ := e
    rw [List.foldl_cons, ih]
    by_cases hk : k = keyId
    · subst hk
      rw [lastValueOf_cons_self]
      cases lastValueOf keyId es <;> simp [applyEntry]
    · rw [lastValueOf_cons_ne keyId k b es hk]
      have hz : (applyEntry z (k, b)).Id = z.Id := by
        unfold applyEntry
        simp only [if_neg hk]
        split_ifs <;> rfl
      rw [hz]

/-- Field `CreatedAt` after the entries are applied in order: the integer read at the
last entry under `"create_time"`, and the prior value where there is none. -/
theorem foldl_applyEntry_CreatedAt (es : List (List Byte × List Byte)) :
    ∀ z : DefaultModel, (es.foldl applyEntry z).CreatedAt
      = ((lastValueOf keyCreateTime es).map (fun vb => (ReadInt64Bytes vb).1)).getD
          z.CreatedAt := by
  have hne : ¬ keyCreateTime = keyId := by decide
  induction es with
  | nil => intro z; rfl
  | cons e es ih =>
    intro z
    obtain ⟨k, b⟩ := e
    rw [List.foldl_cons, ih]
    by_cases hk : k = keyCreateTime
    · subst hk
      rw [lastValueOf_cons_self]
      cases lastValueOf keyCreateTime es <;> simp [applyEntry, hne]
    · rw [lastValueOf_cons_ne keyCreateTime k b es hk]
      have hz : (applyEntry z (k, b)).CreatedAt = z.CreatedAt := by
        unfold applyEntry
        simp only [if_neg hk]
        split_ifs <;> rfl
      rw [hz]

/-- Field `UpdatedAt` after the entries are applied in order: the integer read at the
last entry under `"last_modify_time"`, and the prior value where there is none. -/
theorem foldl_applyEntry_UpdatedAt (es : List (List Byte × List Byte)) :
    ∀ z : DefaultModel, (es.foldl applyEntry z).UpdatedAt
      = ((lastValueOf keyLastModifyTime es).map (fun vb => (ReadInt64Bytes vb).1)).getD
          z.UpdatedAt := by
  have hne1 : ¬ keyLastModifyTime = keyId := by decide
  have hne2 : ¬ keyLastModifyTime = keyCreateTime := by decide
  induction es with
  | nil => intro z; rfl
  | cons e es ih =>
    intro z
    obtain ⟨k, b⟩ := e
    rw [List.foldl_cons, ih]
    by_cases hk : k = keyLastModifyTime
    · subst hk
      rw [lastValueOf_cons_self]
      cases lastValueOf keyLastModifyTime es <;> simp [applyEntry, hne1, hne2]
    · rw [lastValueOf_cons_ne keyLastModifyTime k b es hk]
      have hz : (applyEntry z (k, b)).UpdatedAt = z.UpdatedAt := by
        unfold applyEntry
        simp only [if_neg hk]
        split_ifs <;> rfl
      rw [hz]

/-- C17: for every model and every input byte sequence, `UnmarshalMsg` modifies only
the fields whose keys appear in the message. `ObjectId` is never modified (`GetID` is
the same before and after, on success and on error); each of `Id`, `CreatedAt`,
`UpdatedAt` whose key is absent from the message keeps its prior value, on success as
well as on error, so that a message with none of the three keys leaves the model as it
was; and entries under other keys are skipped. Decoding succeeds exactly where the
header can be read, every entry of the map, whatever its key, can be passed over, and
every value under one of the three keys is one its reader accepts, so an entry under
another key never makes it fail. When decoding succeeds, the bytes returned are those
that follow the last entry of the map, the entries passed over are as many as the
header says, and each of the three fields with an entry under its key has the value
read at the last such entry, whatever entries under other keys stand before it or
after it. -/
theorem UnmarshalMsg_frame (z : DefaultModel) (bts : List Byte) :
    (z.UnmarshalMsg bts).1.GetID = z.GetID ∧
    (keyId ∉ messageKeys bts → (z.UnmarshalMsg bts).1.Id = z.Id) ∧
    (keyCreateTime ∉ messageKeys bts → (z.UnmarshalMsg bts).1.CreatedAt = z.CreatedAt) ∧
    (keyLastModifyTime ∉ messageKeys bts →
      (z.UnmarshalMsg bts).1.UpdatedAt = z.UpdatedAt) ∧
    (keyId ∉ messageKeys bts → keyCreateTime ∉ messageKeys bts →
      keyLastModifyTime ∉ messageKeys bts → (z.UnmarshalMsg bts).1 = z) ∧
    messageKeys bts = (messageEntries bts).map Prod.fst ∧
    ((z.UnmarshalMsg bts).2.2 = none ↔
      (messageRest bts ≠ none ∧ ∀ e ∈ messageEntries bts, valueDecodes e)) ∧
    ((z.UnmarshalMsg bts).2.2 = none →
      messageRest bts = some (z.UnmarshalMsg bts).2.1 ∧
      (messageEntries bts).length = (ReadMapHeaderBytes bts).1 ∧
      (∀ vb, lastValueOf keyId (messageEntries bts) = some vb →
        (z.UnmarshalMsg bts).1.Id = (ReadStringBytes vb).1) ∧
      (∀ vb, lastValueOf keyCreateTime (messageEntries bts) = some vb →
        (z.UnmarshalMsg bts).1.CreatedAt = (ReadInt64Bytes vb).1) ∧
      (∀ vb, lastValueOf keyLastModifyTime (messageEntries bts) = some vb →
        (z.UnmarshalMsg bts).1.UpdatedAt = (ReadInt64Bytes vb).1)) := by
  have hoid : (z.UnmarshalMsg bts).1.ObjectId = z.ObjectId := UnmarshalMsg_ObjectId z bts
  have hfields : (keyId ∉ messageKeys bts → (z.UnmarshalMsg bts).1.Id = z.Id) ∧
      (keyCreateTime ∉ messageKeys bts →
        (z.UnmarshalMsg bts).1.CreatedAt = z.CreatedAt) ∧
      (keyLastModifyTime ∉ messageKeys bts →
        (z.UnmarshalMsg bts).1.UpdatedAt = z.UpdatedAt) := by
    unfold DefaultModel.UnmarshalMsg messageKeys
    rcases hh : ReadMapHeaderBytes bts with ⟨n, b1, _ | e⟩
    · exact unmarshalFields_frame n z b1
    · exact ⟨fun _ => rfl, fun _ => rfl, fun _ => rfl⟩
  have hiff : ((z.UnmarshalMsg bts).2.2 = none ↔
      (messageRest bts ≠ none ∧ ∀ e ∈ messageEntries bts, valueDecodes e)) := by
    unfold DefaultModel.UnmarshalMsg messageRest messageEntries
    rcases hh : ReadMapHeaderBytes bts with ⟨n, b1, _ | e⟩
    · exact (unmarshalFields_entries n z b1).1
    · exact ⟨fun h => absurd h (by simp), fun h => absurd rfl h.1⟩
  have hsucc : (z.UnmarshalMsg bts).2.2 = none →
      messageRest bts = some (z.UnmarshalMsg bts).2.1 ∧
      (messageEntries bts).length = (ReadMapHeaderBytes bts).1 ∧
      (z.UnmarshalMsg bts).1 = (messageEntries bts).foldl applyEntry z := by
    unfold DefaultModel.UnmarshalMsg messageRest messageEntries
    rcases hh : ReadMapHeaderBytes bts with ⟨n, b1, _ | e⟩
    · intro h
      have h2 := (unmarshalFields_entries n z b1).2 h
      exact ⟨h2.1, afterEntries_length n b1 _ h2.1, h2.2⟩
    · intro h
      exact absurd h (by simp)
  refine ⟨hoid, hfields.1, hfields.2.1, hfields.2.2,
    fun h1 h2 h3 => DefaultModel_eq _ _ hoid (hfields.1 h1) (hfields.2.1 h2)
      (hfields.2.2 h3), messageKeys_eq_map bts, hiff, fun h => ?_⟩
  obtain ⟨hrest, hlen, hfold⟩ := hsucc h
  refine ⟨hrest, hlen, fun vb hvb => ?_, fun vb hvb => ?_, fun vb hvb => ?_⟩
  · rw [hfold, foldl_applyEntry_Id, hvb]
    rfl
  · rw [hfold, foldl_applyEntry_CreatedAt, hvb]
    rfl
  · rw [hfold, foldl_applyEntry_UpdatedAt, hvb]
    rfl

set_option maxRecDepth 1000000 in
/-- C17 on the message `{"name": 7}`, where decoding succeeds and the model is as
before, and on the message `{"name": 7, "id": "x"}`, where decoding succeeds, the entry
under `"name"` is passed over, `Id` is `"x"`, the other fields are as before and no
bytes are left. -/
theorem UnmarshalMsg_frame_witness :
    (sampleModel.UnmarshalMsg foreignMessage).2.2 = none ∧
    (sampleModel.UnmarshalMsg foreignMessage).1 = sampleModel ∧
    (sampleModel.UnmarshalMsg mixedMessage).2.2 = none ∧
    messageRest mixedMessage = some (sampleModel.UnmarshalMsg mixedMessage).2.1 ∧
    (sampleModel.UnmarshalMsg mixedMessage).2.1 = [] ∧
    (messageEntries mixedMessage).length = 2 ∧
    (sampleModel.UnmarshalMsg mixedMessage).1.Id = [0x78] ∧
    (sampleModel.UnmarshalMsg mixedMessage).1.CreatedAt = sampleModel.CreatedAt ∧
    (sampleModel.UnmarshalMsg mixedMessage).1.UpdatedAt = sampleModel.UpdatedAt ∧
    (sampleModel.UnmarshalMsg mixedMessage).1.GetID = sampleModel.GetID :=
  have t := UnmarshalMsg_frame sampleModel mixedMessage
  have hs : (sampleModel.UnmarshalMsg mixedMessage).2.2 = none :=
    t.2.2.2.2.2.2.1.2 ⟨by decide, by decide⟩
  have u := t.2.2.2.2.2.2.2 hs
  ⟨by decide,
    (UnmarshalMsg_frame sampleModel foreignMessage).2.2.2.2.1 (by decide) (by decide)
      (by decide),
    hs, u.1, (Option.some.inj (u.1.symm.trans (by decide))),
    u.2.1.trans (by decide),
    (u.2.2.1 [0xa1, 0x78] (by decide)).trans (by decide),
    t.2.2.1 (by decide), t.2.2.2.1 (by decide), t.1⟩

end Mgm
